import Mathlib

/-!
# parallel3: the task server (task3-2.cpp) and the row slicing of the benchmark (task3.cpp)

The server is embedded as a transition system.  Every member function of
`Server<T>` that runs under `mutex_` is one atomic transition; the body of
`process_tasks` is cut at the points where the dispatcher thread does not hold
the mutex (before the `while (running)` test, before the `cond_var.wait`, and
between `lock.unlock()` and `lock.lock()`).  A blocked call is a transition that
is not enabled (`none`).
-/

namespace Parallel3

/-! ## Data model of task3-2.cpp -/

/-- Modulus of `size_t` arithmetic (64-bit unsigned). -/
def SIZE_MODULUS : Nat := 2 ^ 64

/-- A `std::future<T>`: the value its computation produces and whether the
computation has finished. -/
structure Future (T : Type) where
  value : T
  ready : Bool

/-- The call `std::async(std::launch::async, task)`: the computation is started at once
and has not finished yet; it will produce `task ()`. -/
def async {T : Type} (task : Unit → T) : Future T :=
  { value := task (), ready := false }

/-- The call `future.get()`: blocks (`none`) until the computation has finished. -/
def Future.get {T : Type} (fut : Future T) : Option T :=
  if fut.ready then some fut.value else none

/-- The async computation behind a future finishes. -/
def Future.finish {T : Type} (fut : Future T) : Future T :=
  { fut with ready := true }

/-- Control point of `server_thread`, with the local `task_pair` of `process_tasks`. -/
inductive Thread (T : Type) where
  /-- The object `server_thread` before `start()`. -/
  | not_started : Thread T
  /-- Line 52: about to evaluate `while (running)`; the mutex is not held. -/
  | loop_head : Thread T
  /-- Lines 53-54: acquiring the mutex and waiting on `cond_var`. -/
  | waiting : Thread T
  /-- Lines 59-64: `task_pair` has been moved out of the queue, the mutex is released. -/
  | holding : Nat → Future T → Thread T
  /-- The function `process_tasks` has returned. -/
  | finished : Thread T
  /-- The thread has been joined by `stop()`. -/
  | joined : Thread T

/-- The data members of `Server<T>`. -/
structure Server (T : Type) where
  server_thread : Thread T
  running : Bool
  next_task_id : Nat
  tasks : List (Nat × Future T)
  results : List (Nat × T)

/-- The lookup `results.find(k)` on the `std::unordered_map`, kept as an association list. -/
def map_find {T : Type} : List (Nat × T) → Nat → Option T
  | [], _ => none
  | p :: m, k => if p.1 = k then some p.2 else map_find m k

/-- The call `results.erase(k)`. -/
def map_erase {T : Type} : List (Nat × T) → Nat → List (Nat × T)
  | [], _ => []
  | p :: m, k => if p.1 = k then map_erase m k else p :: map_erase m k

/-- The assignment `results[k] = v`: inserts the key or overwrites its value. -/
def map_assign {T : Type} (m : List (Nat × T)) (k : Nat) (v : T) : List (Nat × T) :=
  (k, v) :: map_erase m k

/-- The constructor `Server() : running(true), next_task_id(0)`. -/
def Server.new {T : Type} : Server T :=
  { server_thread := Thread.not_started, running := true, next_task_id := 0,
    tasks := [], results := [] }

/-! ## Member functions -/

/-- The member `start()`: assigns a new thread running `process_tasks` to `server_thread`.
There is no guard: on a thread object that is not joinable (never started, or already
joined by `stop()`) a new dispatcher is spawned; assigning to a joinable thread calls
`std::terminate`, which is no transition here. -/
def start {T : Type} (s : Server T) : Option (Server T) :=
  match s.server_thread with
  | Thread.not_started => some { s with server_thread := Thread.loop_head }
  | Thread.joined => some { s with server_thread := Thread.loop_head }
  | _ => none

/-- Lines 26-30 of `stop()`: `running = false` under the mutex, then `notify_all`. -/
def stop_signal {T : Type} (s : Server T) : Server T :=
  { s with running := false }

/-- Line 31 of `stop()`: `server_thread.join()` returns once `process_tasks` has returned;
until then the caller is blocked. -/
def stop_join {T : Type} (s : Server T) : Option (Server T) :=
  match s.server_thread with
  | Thread.finished => some { s with server_thread := Thread.joined }
  | _ => none

/-- The member `add_task`: returns `task_id` and the new state. -/
def add_task {T : Type} (task : Unit → T) (s : Server T) : Nat × Server T :=
  let task_id := s.next_task_id
  (task_id,
    { s with
      next_task_id := (s.next_task_id + 1) % SIZE_MODULUS
      tasks := s.tasks ++ [(task_id, async task)] })

/-- The member `request_result`: `none` while the wait predicate
`results.find(task_id) != results.end()` is false (the caller stays blocked). -/
def request_result {T : Type} (task_id : Nat) (s : Server T) : Option (T × Server T) :=
  match map_find s.results task_id with
  | none => none
  | some result => some (result, { s with results := map_erase s.results task_id })

/-- Line 52 of `process_tasks`: the test of `while (running)`. -/
def loop_test {T : Type} (s : Server T) : Option (Server T) :=
  match s.server_thread with
  | Thread.loop_head =>
      some { s with server_thread := if s.running then Thread.waiting else Thread.finished }
  | _ => none

/-- Lines 53-59 of `process_tasks`: wait until `!tasks.empty() || !running`, return if
`!running && tasks.empty()`, otherwise move the front entry out of the queue. -/
def dequeue {T : Type} (s : Server T) : Option (Server T) :=
  match s.server_thread with
  | Thread.waiting =>
      if !s.tasks.isEmpty || !s.running then
        if !s.running && s.tasks.isEmpty then
          some { s with server_thread := Thread.finished }
        else
          match s.tasks with
          | [] => none
          | task_pair :: rest =>
              some { s with tasks := rest,
                            server_thread := Thread.holding task_pair.1 task_pair.2 }
      else none
  | _ => none

/-- Lines 61-67 of `process_tasks`: `task_pair.second.get()`, then under the mutex
`results[task_id] = result`; the loop goes back to its head.  Returns the published
pair and the new state. -/
def publish {T : Type} (s : Server T) : Option ((Nat × T) × Server T) :=
  match s.server_thread with
  | Thread.holding task_id fut =>
      match fut.get with
      | none => none
      | some result =>
          some ((task_id, result),
            { s with results := map_assign s.results task_id result,
                     server_thread := Thread.loop_head })
  | _ => none

/-- The computation awaited by the dispatcher finishes. -/
def complete_held {T : Type} (s : Server T) : Option (Server T) :=
  match s.server_thread with
  | Thread.holding task_id fut =>
      some { s with server_thread := Thread.holding task_id fut.finish }
  | _ => none

/-- Marks the future of the `i`-th queue entry as finished. -/
def finish_at {T : Type} : List (Nat × Future T) → Nat → Option (List (Nat × Future T))
  | [], _ => none
  | p :: q, 0 => some ((p.1, p.2.finish) :: q)
  | p :: q, i + 1 => (finish_at q i).map (fun q' => p :: q')

/-- The computation of the `i`-th queued entry finishes (in any order). -/
def complete_queued {T : Type} (i : Nat) (s : Server T) : Option (Server T) :=
  (finish_at s.tasks i).map (fun q => { s with tasks := q })

/-- One step of the dispatcher thread, chosen by its control point. -/
def dispatcher_step {T : Type} (s : Server T) : Option (Server T) :=
  match s.server_thread with
  | Thread.loop_head => loop_test s
  | Thread.waiting => dequeue s
  | Thread.holding _ _ => (publish s).map Prod.snd
  | _ => none

/-- The function `process_tasks` run by the dispatcher thread with no other thread
interleaved, from the current control point until it returns; `none` when it is
blocked or the fuel is spent. -/
def process_tasks {T : Type} : Nat → Server T → Option (Server T)
  | 0, _ => none
  | fuel + 1, s =>
      match s.server_thread with
      | Thread.finished => some s
      | Thread.joined => some s
      | _ =>
          match dispatcher_step s with
          | none => none
          | some s' => process_tasks fuel s'

/-! ## The transition system -/

/-- The atomic transitions of the program. -/
inductive Event (T : Type) where
  | start : Event T
  | stop_signal : Event T
  | stop_join : Event T
  | add_task : (Unit → T) → Event T
  | request_result : Nat → Event T
  | loop_test : Event T
  | dequeue : Event T
  | publish : Event T
  | complete_held : Event T
  | complete_queued : Nat → Event T

/-- What a transition shows to its caller or to the history. -/
inductive Obs (T : Type) where
  | silent : Obs T
  /-- The call `add_task(task)` returned `task_id`. -/
  | submitted : Nat → (Unit → T) → Obs T
  /-- The call `request_result(task_id)` returned `result`. -/
  | retrieved : Nat → T → Obs T
  /-- The dispatcher executed `results[task_id] = result`. -/
  | published : Nat → T → Obs T
  /-- The call `stop()` returned. -/
  | stopped : Obs T

/-- One transition; `none` when the event is not enabled in `s`. -/
def step {T : Type} : Event T → Server T → Option (Obs T × Server T)
  | Event.start, s => (start s).map (fun s' => (Obs.silent, s'))
  | Event.stop_signal, s => some (Obs.silent, stop_signal s)
  | Event.stop_join, s => (stop_join s).map (fun s' => (Obs.stopped, s'))
  | Event.add_task task, s => some (Obs.submitted (add_task task s).1 task, (add_task task s).2)
  | Event.request_result task_id, s =>
      (request_result task_id s).map (fun r => (Obs.retrieved task_id r.1, r.2))
  | Event.loop_test, s => (loop_test s).map (fun s' => (Obs.silent, s'))
  | Event.dequeue, s => (dequeue s).map (fun s' => (Obs.silent, s'))
  | Event.publish, s => (publish s).map (fun r => (Obs.published r.1.1 r.1.2, r.2))
  | Event.complete_held, s => (complete_held s).map (fun s' => (Obs.silent, s'))
  | Event.complete_queued i, s => (complete_queued i s).map (fun s' => (Obs.silent, s'))

/-- Runs a schedule of events, appending each observation to the history. -/
def run {T : Type} : List (Event T) → List (Obs T) × Server T → Option (List (Obs T) × Server T)
  | [], c => some c
  | e :: es, c =>
      match step e c.2 with
      | none => none
      | some r => run es (c.1 ++ [r.1], r.2)

/-- The freshly constructed server with an empty history. -/
def init {T : Type} : List (Obs T) × Server T := ([], Server.new)

/-- The handles returned by `add_task`, in call order. -/
def handles_returned {T : Type} : List (Obs T) → List Nat
  | [] => []
  | Obs.submitted task_id _ :: log => task_id :: handles_returned log
  | _ :: log => handles_returned log

/-- The pairs (handle returned, value of the submitted computation), in call order. -/
def submissions {T : Type} : List (Obs T) → List (Nat × T)
  | [] => []
  | Obs.submitted task_id task :: log => (task_id, task ()) :: submissions log
  | _ :: log => submissions log

/-- The pairs (handle, result) written into `results` by the dispatcher, in order. -/
def publications {T : Type} : List (Obs T) → List (Nat × T)
  | [] => []
  | Obs.published task_id result :: log => (task_id, result) :: publications log
  | _ :: log => publications log

/-- The handles published by the dispatcher, in order. -/
def handles_published {T : Type} (log : List (Obs T)) : List Nat :=
  (publications log).map Prod.fst

/-- The handles consumed by `request_result`, in order. -/
def handles_retrieved {T : Type} : List (Obs T) → List Nat
  | [] => []
  | Obs.retrieved task_id _ :: log => task_id :: handles_retrieved log
  | _ :: log => handles_retrieved log

/-- The handles in the pending queue `tasks`. -/
def queued_handles {T : Type} (s : Server T) : List Nat :=
  s.tasks.map Prod.fst

/-- The handle held by the dispatcher between dequeue and publication, if any. -/
def held_handles {T : Type} (s : Server T) : List Nat :=
  match s.server_thread with
  | Thread.holding task_id _ => [task_id]
  | _ => []

/-- The pair (handle, value of its computation) held by the dispatcher, if any. -/
def held_pairs {T : Type} (s : Server T) : List (Nat × T) :=
  match s.server_thread with
  | Thread.holding task_id fut => [(task_id, fut.value)]
  | _ => []

/-- The pairs (handle, value of its computation) of the pending queue, front first. -/
def queued_pairs {T : Type} (s : Server T) : List (Nat × T) :=
  s.tasks.map (fun p => (p.1, p.2.value))

/-- The handles that have a completed result in `results`. -/
def completed_handles {T : Type} (s : Server T) : List Nat :=
  s.results.map Prod.fst

/-- The number of `add_task` calls in a schedule. -/
def submitted_count {T : Type} : List (Event T) → Nat
  | [] => 0
  | Event.add_task _ :: tr => submitted_count tr + 1
  | _ :: tr => submitted_count tr

/-- A client computation that produces `v`. -/
def task_const (v : Nat) : Unit → Nat := fun _ => v

/-- Three submissions interleaved with the dispatcher and one retrieval. -/
def schedule_three : List (Event Nat) :=
  [Event.start, Event.add_task (task_const 10), Event.loop_test, Event.add_task (task_const 11),
   Event.dequeue, Event.complete_queued 0, Event.complete_held, Event.publish,
   Event.request_result 0, Event.add_task (task_const 12)]

/-- The history and state reached by `schedule_three`. -/
def after_three : List (Obs Nat) × Server Nat :=
  ([Obs.silent, Obs.submitted 0 (task_const 10), Obs.silent, Obs.submitted 1 (task_const 11),
    Obs.silent, Obs.silent, Obs.silent, Obs.published 0 10, Obs.retrieved 0 10,
    Obs.submitted 2 (task_const 12)],
   { server_thread := Thread.loop_head, running := true, next_task_id := 3,
     tasks := [(1, { value := 11, ready := true }), (2, { value := 12, ready := false })],
     results := [] })

/-- One task is submitted and dequeued; its result is not published yet. -/
def schedule_in_flight : List (Event Nat) :=
  [Event.start, Event.add_task (task_const 10), Event.loop_test, Event.dequeue]

/-- The history and state reached by `schedule_in_flight`. -/
def after_in_flight : List (Obs Nat) × Server Nat :=
  ([Obs.silent, Obs.submitted 0 (task_const 10), Obs.silent, Obs.silent],
   { server_thread := Thread.holding 0 { value := 10, ready := false }, running := true,
     next_task_id := 1, tasks := [], results := [] })

/-- One task is submitted, published and retrieved. -/
def schedule_retrieved : List (Event Nat) :=
  [Event.start, Event.add_task (task_const 10), Event.loop_test, Event.dequeue,
   Event.complete_held, Event.publish, Event.request_result 0]

/-- The history and state reached by `schedule_retrieved`. -/
def after_retrieved : List (Obs Nat) × Server Nat :=
  ([Obs.silent, Obs.submitted 0 (task_const 10), Obs.silent, Obs.silent, Obs.silent,
    Obs.published 0 10, Obs.retrieved 0 10],
   { server_thread := Thread.loop_head, running := true, next_task_id := 1,
     tasks := [], results := [] })

/-- A server whose result map holds the published result 10 of handle 0. -/
def server_published : Server Nat :=
  { server_thread := Thread.loop_head, running := true, next_task_id := 1,
    tasks := [], results := [(0, 10)] }

/-- The dispatcher has dequeued the only task and its computation has finished when
`stop()` sets `running` to false: the queue is empty, the result is not published yet. -/
def schedule_stop_while_holding : List (Event Nat) :=
  [Event.start, Event.loop_test, Event.add_task (task_const 10), Event.dequeue,
   Event.complete_held, Event.stop_signal]

/-- The history and state reached by `schedule_stop_while_holding`. -/
def after_stop_while_holding : List (Obs Nat) × Server Nat :=
  ([Obs.silent, Obs.silent, Obs.submitted 0 (task_const 10), Obs.silent, Obs.silent,
    Obs.silent],
   { server_thread := Thread.holding 0 { value := 10, ready := true }, running := false,
     next_task_id := 1, tasks := [], results := [] })

/-- A started server that is idle in `cond_var.wait` when `stop()` has set `running`
to false, with an empty queue and one unretrieved result. -/
def server_idle_stopping : Server Nat :=
  { server_thread := Thread.waiting, running := false, next_task_id := 1,
    tasks := [], results := [(0, 10)] }

/-- The dispatcher waits on the empty queue, `stop()` sets `running` to false, the
dispatcher returns at line 55, then `add_task` is called, and `stop()` returns from `join`. -/
def schedule_submit_after_stop : List (Event Nat) :=
  [Event.start, Event.loop_test, Event.stop_signal, Event.dequeue,
   Event.add_task (task_const 10), Event.stop_join]

/-- The history and state reached by `schedule_submit_after_stop`. -/
def after_submit_after_stop : List (Obs Nat) × Server Nat :=
  ([Obs.silent, Obs.silent, Obs.silent, Obs.silent, Obs.submitted 0 (task_const 10),
    Obs.stopped],
   { server_thread := Thread.joined, running := false, next_task_id := 1,
     tasks := [(0, { value := 10, ready := false })], results := [] })

/-- A server whose dispatcher has returned after `stop()`. -/
def server_stopped : Server Nat :=
  { server_thread := Thread.finished, running := false, next_task_id := 0,
    tasks := [], results := [] }

/-- Three tasks are pending when `stop()` is called while the dispatcher waits on the
queue: the dispatcher publishes the first one, tests `while (running)` and returns. -/
def schedule_stop_three_pending : List (Event Nat) :=
  [Event.start, Event.loop_test, Event.add_task (task_const 10),
   Event.add_task (task_const 11), Event.add_task (task_const 12), Event.stop_signal,
   Event.dequeue, Event.complete_held, Event.publish, Event.loop_test, Event.stop_join]

/-- The history and state reached by `schedule_stop_three_pending`. -/
def after_stop_three_pending : List (Obs Nat) × Server Nat :=
  ([Obs.silent, Obs.silent, Obs.submitted 0 (task_const 10), Obs.submitted 1 (task_const 11),
    Obs.submitted 2 (task_const 12), Obs.silent, Obs.silent, Obs.silent,
    Obs.published 0 10, Obs.silent, Obs.stopped],
   { server_thread := Thread.joined, running := false, next_task_id := 3,
     tasks := [(1, { value := 11, ready := false }), (2, { value := 12, ready := false })],
     results := [(0, 10)] })

/-- Three tasks are pending when `stop()` is called before the dispatcher thread has
reached its first `while (running)` test. -/
def schedule_stop_three_early : List (Event Nat) :=
  [Event.start, Event.add_task (task_const 10), Event.add_task (task_const 11),
   Event.add_task (task_const 12), Event.stop_signal, Event.loop_test, Event.stop_join]

/-- The history and state reached by `schedule_stop_three_early`. -/
def after_stop_three_early : List (Obs Nat) × Server Nat :=
  ([Obs.silent, Obs.submitted 0 (task_const 10), Obs.submitted 1 (task_const 11),
    Obs.submitted 2 (task_const 12), Obs.silent, Obs.silent, Obs.stopped],
   { server_thread := Thread.joined, running := false, next_task_id := 3,
     tasks := [(0, { value := 10, ready := false }), (1, { value := 11, ready := false }),
       (2, { value := 12, ready := false })],
     results := [] })

/-- Two tasks are submitted and published, the second computation finishing first;
nothing is retrieved. -/
def schedule_two_published : List (Event Nat) :=
  [Event.start, Event.add_task (task_const 10), Event.add_task (task_const 11),
   Event.complete_queued 1, Event.loop_test, Event.dequeue, Event.complete_held,
   Event.publish, Event.loop_test, Event.dequeue, Event.publish,
   Event.add_task (task_const 12)]

/-- The history and state reached by `schedule_two_published`. -/
def after_two_published : List (Obs Nat) × Server Nat :=
  ([Obs.silent, Obs.submitted 0 (task_const 10), Obs.submitted 1 (task_const 11), Obs.silent,
    Obs.silent, Obs.silent, Obs.silent, Obs.published 0 10, Obs.silent, Obs.silent,
    Obs.published 1 11, Obs.submitted 2 (task_const 12)],
   { server_thread := Thread.loop_head, running := true, next_task_id := 3,
     tasks := [(2, { value := 12, ready := false })], results := [(1, 11), (0, 10)] })

/-- The first task (producing 1) is submitted as handle 0 and published; nobody
retrieves it. -/
def wrap_head : List (Event Nat) :=
  [Event.start, Event.add_task (task_const 1), Event.loop_test, Event.dequeue,
   Event.complete_held, Event.publish]

/-- The history of `wrap_head`. -/
def wrap_head_log : List (Obs Nat) :=
  [Obs.silent, Obs.submitted 0 (task_const 1), Obs.silent, Obs.silent, Obs.silent,
   Obs.published 0 1]

/-- The idle server with the unretrieved result 1 of handle 0 and allocator at `k`. -/
def wrap_state (k : Nat) : Server Nat :=
  { server_thread := Thread.loop_head, running := true, next_task_id := k,
    tasks := [], results := [(0, 1)] }

/-- A task (producing 2) is submitted, receives handle `k`, is published and retrieved. -/
def wrap_cycle (k : Nat) : List (Event Nat) :=
  [Event.add_task (task_const 2), Event.loop_test, Event.dequeue, Event.complete_held,
   Event.publish, Event.request_result k]

/-- The history of `wrap_cycle k`. -/
def wrap_cycle_log (k : Nat) : List (Obs Nat) :=
  [Obs.submitted k (task_const 2), Obs.silent, Obs.silent, Obs.silent, Obs.published k 2,
   Obs.retrieved k 2]

/-- The cycles for the handles `1, 2, ..., n`. -/
def wrap_cycles : Nat → List (Event Nat)
  | 0 => []
  | n + 1 => wrap_cycles n ++ wrap_cycle (n + 1)

/-- The history of `wrap_cycles n`. -/
def wrap_cycles_log : Nat → List (Obs Nat)
  | 0 => []
  | n + 1 => wrap_cycles_log n ++ wrap_cycle_log (n + 1)

/-- Handle 0 is published and left unretrieved, the handles `1, ..., 2^64 - 1` are used
up, and one more task is submitted: `next_task_id` has wrapped and the call returns 0. -/
def schedule_wrap_resubmit : List (Event Nat) :=
  wrap_head ++ wrap_cycles (SIZE_MODULUS - 1) ++ [Event.add_task (task_const 2)]

/-- The history of `schedule_wrap_resubmit`. -/
def log_wrap_resubmit : List (Obs Nat) :=
  wrap_head_log ++ wrap_cycles_log (SIZE_MODULUS - 1) ++ [Obs.submitted 0 (task_const 2)]

/-- The state reached by `schedule_wrap_resubmit`. -/
def state_wrap_resubmit : Server Nat :=
  { server_thread := Thread.loop_head, running := true, next_task_id := 1,
    tasks := [(0, { value := 2, ready := false })], results := [(0, 1)] }

/-- After `schedule_wrap_resubmit` the dispatcher publishes the second task that was
given handle 0. -/
def schedule_wrap_republish : List (Event Nat) :=
  schedule_wrap_resubmit ++
    [Event.loop_test, Event.dequeue, Event.complete_held, Event.publish]

/-- The history of `schedule_wrap_republish`. -/
def log_wrap_republish : List (Obs Nat) :=
  log_wrap_resubmit ++ [Obs.silent, Obs.silent, Obs.silent, Obs.published 0 2]

/-- The state reached by `schedule_wrap_republish`. -/
def state_wrap_republish : Server Nat :=
  { server_thread := Thread.loop_head, running := true, next_task_id := 1,
    tasks := [], results := [(0, 2)] }

/-! ## The slicing loop of task3.cpp -/

/-- Lines 68-72 of `main` in task3.cpp: the slicing loop from counter `i` on, with the
current value of `endRow`; returns the `(startRow, endRow)` pairs handed to the workers.
The fuel bounds the number of iterations. -/
def slice_loop (rowsPerThread remainingRows numThread : Int) :
    Nat → Int → Int → List (Int × Int)
  | 0, _, _ => []
  | fuel + 1, i, endRow =>
      if i < numThread then
        let startRow := endRow
        let endRow' := startRow + rowsPerThread + (if i < remainingRows then 1 else 0)
        (startRow, endRow') ::
          slice_loop rowsPerThread remainingRows numThread fuel (i + 1) endRow'
      else []

/-- Lines 63-72 of `main` in task3.cpp for `n` rows and `numThread` workers; `/` and `%`
on `int` truncate toward zero. -/
def slices (n numThread : Int) : List (Int × Int) :=
  slice_loop (Int.tdiv n numThread) (Int.tmod n numThread) numThread numThread.toNat 0 0

/-- Whether the loop `for (int i = startRow; i < endRow; ++i)` of `matrixVectorMultiply`
visits `row`. -/
def visits (p : Int × Int) (row : Int) : Bool :=
  decide (p.1 ≤ row ∧ row < p.2)

/-- The value of `endRow` after `k` iterations of the slicing loop. -/
def slice_bound (q r : Int) (k : Nat) : Int :=
  (k : Int) * q + min (k : Int) r

/-! ## The invariant of the server -/

/-- The history invariant of the server: the handle allocator counts the submissions
modulo `SIZE_MODULUS`, the entries travel first-in first-out from the queue through the
dispatcher into the publications, and `results` holds only published pairs. -/
structure Inv {T : Type} (c : List (Obs T) × Server T) : Prop where
  counter : c.2.next_task_id = (submissions c.1).length % SIZE_MODULUS
  handles : (submissions c.1).map Prod.fst
      = (List.range (submissions c.1).length).map (fun k => k % SIZE_MODULUS)
  fifo : publications c.1 ++ held_pairs c.2 ++ queued_pairs c.2 = submissions c.1
  stored : ∀ k v, map_find c.2.results k = some v → (k, v) ∈ publications c.1
  kept : ∀ k, k ∈ handles_published c.1 → k ∈ completed_handles c.2 ∨ k ∈ handles_retrieved c.1

/-! ## Lemmas on the result map -/

theorem map_find_erase {T : Type} (m : List (Nat × T)) (k k' : Nat) :
    map_find (map_erase m k) k' = if k = k' then none else map_find m k' := by
  induction m with
  | nil => simp [map_erase, map_find]
  | cons p m ih =>
      by_cases hp : p.1 = k
      · by_cases hk : k = k'
        · subst hk; simp [map_erase, hp, ih]
        · have : ¬ p.1 = k' := by rw [hp]; exact hk
          simp [map_erase, map_find, hp, ih, hk]
      · by_cases hk : k = k'
        · subst hk; simp [map_erase, map_find, hp, ih]
        · simp [map_erase, map_find, hp, ih, hk]

theorem map_find_assign {T : Type} (m : List (Nat × T)) (k k' : Nat) (v : T) :
    map_find (map_assign m k v) k' = if k = k' then some v else map_find m k' := by
  by_cases hk : k = k'
  · simp [map_assign, map_find, hk]
  · simp [map_assign, map_find, hk, map_find_erase]

theorem mem_keys_iff {T : Type} (m : List (Nat × T)) (k : Nat) :
    k ∈ m.map Prod.fst ↔ map_find m k ≠ none := by
  induction m with
  | nil => simp [map_find]
  | cons p m ih =>
      by_cases hp : p.1 = k
      · simp [map_find, hp]
      · simp only [List.map_cons, List.mem_cons, map_find, hp, if_false, ih]
        constructor
        · rintro (h | h)
          · exact absurd h.symm hp
          · exact h
        · intro h; exact Or.inr h

/-! ## Lemmas on histories -/

theorem submissions_append {T : Type} (l1 l2 : List (Obs T)) :
    submissions (l1 ++ l2) = submissions l1 ++ submissions l2 := by
  induction l1 with
  | nil => rfl
  | cons o l ih => cases o <;> simp [submissions, ih]

theorem handles_returned_append {T : Type} (l1 l2 : List (Obs T)) :
    handles_returned (l1 ++ l2) = handles_returned l1 ++ handles_returned l2 := by
  induction l1 with
  | nil => rfl
  | cons o l ih => cases o <;> simp [handles_returned, ih]

theorem publications_append {T : Type} (l1 l2 : List (Obs T)) :
    publications (l1 ++ l2) = publications l1 ++ publications l2 := by
  induction l1 with
  | nil => rfl
  | cons o l ih => cases o <;> simp [publications, ih]

theorem handles_published_append {T : Type} (l1 l2 : List (Obs T)) :
    handles_published (l1 ++ l2) = handles_published l1 ++ handles_published l2 := by
  simp [handles_published, publications_append]

theorem handles_retrieved_append {T : Type} (l1 l2 : List (Obs T)) :
    handles_retrieved (l1 ++ l2) = handles_retrieved l1 ++ handles_retrieved l2 := by
  induction l1 with
  | nil => rfl
  | cons o l ih => cases o <;> simp [handles_retrieved, ih]

theorem submissions_fst {T : Type} (log : List (Obs T)) :
    (submissions log).map Prod.fst = handles_returned log := by
  induction log with
  | nil => rfl
  | cons o l ih => cases o <;> simp [submissions, handles_returned, ih]

theorem mem_submissions {T : Type} (log : List (Obs T)) (h : Nat) (f : Unit → T)
    (hm : Obs.submitted h f ∈ log) : (h, f ()) ∈ submissions log := by
  induction log with
  | nil => cases hm
  | cons o l ih =>
      rcases List.mem_cons.1 hm with heq | hl
      · subst heq; simp [submissions]
      · cases o <;> simp [submissions, ih hl]

/-- An invariant of every transition holds along every schedule. -/
theorem run_invariant {T : Type} (P : List (Obs T) × Server T → Prop)
    (hstep : ∀ c e r, P c → step e c.2 = some r → P (c.1 ++ [r.1], r.2)) :
    ∀ (tr : List (Event T)) (c c' : List (Obs T) × Server T),
      P c → run tr c = some c' → P c' := by
  intro tr
  induction tr with
  | nil =>
      intro c c' hc hr
      simp only [run, Option.some.injEq] at hr
      exact hr ▸ hc
  | cons e es ih =>
      intro c c' hc hr
      simp only [run] at hr
      cases hs : step e c.2 with
      | none => simp [hs] at hr
      | some r =>
          simp only [hs] at hr
          exact ih _ _ (hstep c e r hc hs) hr

theorem run_append {T : Type} (tr1 tr2 : List (Event T)) (c : List (Obs T) × Server T) :
    run (tr1 ++ tr2) c = (run tr1 c).bind (run tr2) := by
  induction tr1 generalizing c with
  | nil => simp [run]
  | cons e es ih =>
      simp only [List.cons_append, run]
      cases hs : step e c.2 with
      | none => simp
      | some r => simp [ih]

theorem finish_at_pairs {T : Type} (q q' : List (Nat × Future T)) (i : Nat)
    (h : finish_at q i = some q') :
    q'.map (fun p => (p.1, p.2.value)) = q.map (fun p => (p.1, p.2.value)) := by
  induction q generalizing i q' with
  | nil => simp [finish_at] at h
  | cons p q ih =>
      cases i with
      | zero =>
          simp only [finish_at, Option.some.injEq] at h
          subst h
          simp [Future.finish]
      | succ i =>
          simp only [finish_at, Option.map_eq_some'] at h
          obtain ⟨q1, hq1, rfl⟩ := h
          simp [ih q1 i hq1]

/-- Every transition as a change of the history and of the three places an entry can be
in: the queue, the dispatcher, the result map. -/
theorem step_effect {T : Type} (e : Event T) (s : Server T) (r : Obs T × Server T)
    (h : step e s = some r) :
    (r.1 = Obs.silent ∧ r.2.results = s.results ∧ r.2.next_task_id = s.next_task_id ∧
        held_pairs r.2 ++ queued_pairs r.2 = held_pairs s ++ queued_pairs s) ∨
    (r.1 = Obs.stopped ∧ r.2.results = s.results ∧ r.2.next_task_id = s.next_task_id ∧
        held_pairs r.2 ++ queued_pairs r.2 = held_pairs s ++ queued_pairs s) ∨
    (∃ task, r.1 = Obs.submitted s.next_task_id task ∧ r.2.results = s.results ∧
        r.2.next_task_id = (s.next_task_id + 1) % SIZE_MODULUS ∧
        held_pairs r.2 = held_pairs s ∧
        queued_pairs r.2 = queued_pairs s ++ [(s.next_task_id, task ())]) ∨
    (∃ k v, r.1 = Obs.retrieved k v ∧ map_find s.results k = some v ∧
        r.2.results = map_erase s.results k ∧ r.2.next_task_id = s.next_task_id ∧
        held_pairs r.2 = held_pairs s ∧ queued_pairs r.2 = queued_pairs s) ∨
    (∃ k v, r.1 = Obs.published k v ∧ r.2.results = map_assign s.results k v ∧
        r.2.next_task_id = s.next_task_id ∧ held_pairs s = [(k, v)] ∧ held_pairs r.2 = [] ∧
        queued_pairs r.2 = queued_pairs s) := by
  cases e with
  | start =>
      left
      simp only [step, start, Option.map_eq_some'] at h
      obtain ⟨s1, hs1, rfl⟩ := h
      cases hth : s.server_thread <;> simp [hth] at hs1
      all_goals
        subst hs1
        simp [held_pairs, queued_pairs, hth]
  | stop_signal =>
      left
      simp only [step, Option.some.injEq] at h
      subst h
      simp [stop_signal, held_pairs, queued_pairs]
  | stop_join =>
      right; left
      simp only [step, stop_join, Option.map_eq_some'] at h
      obtain ⟨s1, hs1, rfl⟩ := h
      cases hth : s.server_thread <;> simp [hth] at hs1
      subst hs1
      simp [held_pairs, queued_pairs, hth]
  | add_task task =>
      right; right; left
      simp only [step, Option.some.injEq] at h
      subst h
      exact ⟨task, by simp [add_task, held_pairs, queued_pairs, async]⟩
  | request_result k =>
      right; right; right; left
      simp only [step, request_result, Option.map_eq_some'] at h
      obtain ⟨r1, hr1, rfl⟩ := h
      cases hf : map_find s.results k with
      | none => simp [hf] at hr1
      | some v =>
          simp only [hf, Option.some.injEq] at hr1
          subst hr1
          exact ⟨k, v, by simp [held_pairs, queued_pairs, hf]⟩
  | loop_test =>
      left
      simp only [step, loop_test, Option.map_eq_some'] at h
      obtain ⟨s1, hs1, rfl⟩ := h
      cases hth : s.server_thread <;> simp [hth] at hs1
      subst hs1
      cases hr : s.running <;> simp [held_pairs, queued_pairs, hth]
  | dequeue =>
      left
      simp only [step, dequeue, Option.map_eq_some'] at h
      obtain ⟨s1, hs1, rfl⟩ := h
      cases hth : s.server_thread <;> simp only [hth] at hs1 <;> try (cases hs1)
      split at hs1
      · split at hs1
        · simp only [Option.some.injEq] at hs1
          subst hs1
          simp [held_pairs, queued_pairs, hth]
        · cases hq : s.tasks with
          | nil => simp [hq] at hs1
          | cons p q =>
              simp only [hq, Option.some.injEq] at hs1
              subst hs1
              simp [held_pairs, queued_pairs, hth, hq]
      · simp at hs1
  | publish =>
      right; right; right; right
      simp only [step, publish, Option.map_eq_some'] at h
      obtain ⟨r1, hr1, rfl⟩ := h
      cases hth : s.server_thread <;> simp only [hth] at hr1 <;> try (cases hr1)
      rename_i k fut
      cases hg : fut.get with
      | none => simp [hg] at hr1
      | some v =>
          simp only [hg, Option.some.injEq] at hr1
          subst hr1
          have hv : fut.value = v := by
            unfold Future.get at hg
            split at hg
            · simpa using hg
            · simp at hg
          exact ⟨k, v, by simp [held_pairs, queued_pairs, hth, hv]⟩
  | complete_held =>
      left
      simp only [step, complete_held, Option.map_eq_some'] at h
      obtain ⟨s1, hs1, rfl⟩ := h
      cases hth : s.server_thread <;> simp [hth] at hs1
      subst hs1
      simp [held_pairs, queued_pairs, hth, Future.finish]
  | complete_queued i =>
      left
      simp only [step, complete_queued, Option.map_eq_some'] at h
      obtain ⟨s1, ⟨q, hq, rfl⟩, rfl⟩ := h
      have := finish_at_pairs _ _ _ hq
      cases hth : s.server_thread <;> simp [held_pairs, queued_pairs, hth, this]

theorem completed_erase {T : Type} (s : List (Nat × T)) (k k' : Nat) (hne : k' ≠ k)
    (h : k' ∈ s.map Prod.fst) : k' ∈ (map_erase s k).map Prod.fst := by
  rw [mem_keys_iff] at h ⊢
  rw [map_find_erase]
  simp [Ne.symm hne, h]

theorem completed_assign {T : Type} (s : List (Nat × T)) (k k' : Nat) (v : T)
    (h : k' ∈ s.map Prod.fst) : k' ∈ (map_assign s k v).map Prod.fst := by
  rw [mem_keys_iff] at h ⊢
  rw [map_find_assign]
  by_cases hk : k = k'
  · simp [hk]
  · simp [hk, h]

theorem inv_init {T : Type} : Inv (init : List (Obs T) × Server T) where
  counter := by simp [init, Server.new, submissions]
  handles := by simp [init, submissions]
  fifo := by simp [init, Server.new, submissions, publications, held_pairs, queued_pairs]
  stored := by simp [init, Server.new, map_find]
  kept := by simp [init, handles_published, publications]

theorem inv_step {T : Type} (c : List (Obs T) × Server T) (e : Event T)
    (r : Obs T × Server T) (hc : Inv c) (hs : step e c.2 = some r) :
    Inv (c.1 ++ [r.1], r.2) := by
  obtain ⟨log, s⟩ := c
  obtain ⟨o, s'⟩ := r
  have hfifo := hc.fifo
  simp only [List.append_assoc] at hfifo
  rcases step_effect e s (o, s') hs with
    ⟨ho, hres, hnext, hq⟩ | ⟨ho, hres, hnext, hq⟩ | ⟨task, ho, hres, hnext, hheld, hq⟩ |
    ⟨k, v, ho, hfind, hres, hnext, hheld, hq⟩ | ⟨k, v, ho, hres, hnext, hheld, hheld', hq⟩
  · simp only at ho hres hnext hq
    subst ho
    have h1 : submissions (log ++ [Obs.silent]) = submissions log := by
      simp [submissions_append, submissions]
    have h2 : publications (log ++ [Obs.silent]) = publications log := by
      simp [publications_append, publications]
    have h3 : handles_retrieved (log ++ [Obs.silent]) = handles_retrieved log := by
      simp [handles_retrieved_append, handles_retrieved]
    refine ⟨?_, ?_, ?_, ?_, ?_⟩
    · simp only [h1, hnext]; exact hc.counter
    · simp only [h1]; exact hc.handles
    · simp only [h1, h2, List.append_assoc, hq]; exact hfifo
    · simp only [h2, hres]; exact hc.stored
    · simp only [handles_published, h2, h3, completed_handles, hres]; exact hc.kept
  · simp only at ho hres hnext hq
    subst ho
    have h1 : submissions (log ++ [Obs.stopped]) = submissions log := by
      simp [submissions_append, submissions]
    have h2 : publications (log ++ [Obs.stopped]) = publications log := by
      simp [publications_append, publications]
    have h3 : handles_retrieved (log ++ [Obs.stopped]) = handles_retrieved log := by
      simp [handles_retrieved_append, handles_retrieved]
    refine ⟨?_, ?_, ?_, ?_, ?_⟩
    · simp only [h1, hnext]; exact hc.counter
    · simp only [h1]; exact hc.handles
    · simp only [h1, h2, List.append_assoc, hq]; exact hfifo
    · simp only [h2, hres]; exact hc.stored
    · simp only [handles_published, h2, h3, completed_handles, hres]; exact hc.kept
  · simp only at ho hres hnext hheld hq
    subst ho
    have h1 : submissions (log ++ [Obs.submitted s.next_task_id task])
        = submissions log ++ [(s.next_task_id, task ())] := by
      simp [submissions_append, submissions]
    have h2 : publications (log ++ [Obs.submitted s.next_task_id task])
        = publications log := by
      simp [publications_append, publications]
    have h3 : handles_retrieved (log ++ [Obs.submitted s.next_task_id task])
        = handles_retrieved log := by
      simp [handles_retrieved_append, handles_retrieved]
    have hcnt := hc.counter
    simp only at hcnt
    refine ⟨?_, ?_, ?_, ?_, ?_⟩
    · rw [h1]
      simp only [hnext, hcnt, List.length_append, List.length_singleton]
      exact Nat.mod_add_mod _ _ _
    · have hh := hc.handles
      simp only at hh
      rw [h1]
      simp only [List.map_append, List.length_append, List.length_singleton,
        List.range_succ, List.map_cons, List.map_nil, hh, hcnt]
    · simp only [h1, h2, List.append_assoc, hheld, hq]
      rw [← hfifo]; simp
    · simp only [h2, hres]; exact hc.stored
    · simp only [handles_published, h2, h3, completed_handles, hres]; exact hc.kept
  · simp only at ho hfind hres hnext hheld hq
    subst ho
    have h1 : submissions (log ++ [Obs.retrieved k v]) = submissions log := by
      simp [submissions_append, submissions]
    have h2 : publications (log ++ [Obs.retrieved k v]) = publications log := by
      simp [publications_append, publications]
    have h3 : handles_retrieved (log ++ [Obs.retrieved k v])
        = handles_retrieved log ++ [k] := by
      simp [handles_retrieved_append, handles_retrieved]
    refine ⟨?_, ?_, ?_, ?_, ?_⟩
    · simp only [h1, hnext]; exact hc.counter
    · simp only [h1]; exact hc.handles
    · simp only [h1, h2, List.append_assoc, hheld, hq]; exact hfifo
    · intro k' v' hk'
      simp only [h2]
      simp only [hres, map_find_erase] at hk'
      by_cases hkk : k = k'
      · simp [hkk] at hk'
      · simp only [hkk, if_false] at hk'
        exact hc.stored k' v' hk'
    · intro k' hk'
      simp only [handles_published, h2] at hk'
      simp only [h3, completed_handles, hres]
      by_cases hkk : k' = k
      · right; simp [hkk]
      · rcases hc.kept k' hk' with h | h
        · left; exact completed_erase _ _ _ hkk h
        · right; simp [h]
  · simp only at ho hres hnext hheld hheld' hq
    subst ho
    have h1 : submissions (log ++ [Obs.published k v]) = submissions log := by
      simp [submissions_append, submissions]
    have h2 : publications (log ++ [Obs.published k v]) = publications log ++ [(k, v)] := by
      simp [publications_append, publications]
    have h3 : handles_retrieved (log ++ [Obs.published k v]) = handles_retrieved log := by
      simp [handles_retrieved_append, handles_retrieved]
    refine ⟨?_, ?_, ?_, ?_, ?_⟩
    · simp only [h1, hnext]; exact hc.counter
    · simp only [h1]; exact hc.handles
    · simp only [h1, h2, List.append_assoc, hheld', hq]
      rw [← hfifo, hheld]; simp
    · intro k' v' hk'
      simp only [h2]
      simp only [hres, map_find_assign] at hk'
      by_cases hkk : k = k'
      · simp only [hkk, if_true, Option.some.injEq] at hk'
        simp [hkk, hk']
      · simp only [hkk, if_false] at hk'
        exact List.mem_append_left _ (hc.stored k' v' hk')
    · intro k' hk'
      simp only [handles_published, h2, List.map_append, List.map_cons, List.map_nil,
        List.mem_append, List.mem_singleton] at hk'
      simp only [h3, completed_handles, hres]
      rcases hk' with hk' | hk'
      · rcases hc.kept k' hk' with h | h
        · left; exact completed_assign _ _ _ _ h
        · right; exact h
      · left; subst hk'; simp [map_assign]

/-- Every state reachable from the freshly constructed server satisfies the invariant. -/
theorem inv_reachable {T : Type} (tr : List (Event T)) (c : List (Obs T) × Server T)
    (hr : run tr init = some c) : Inv c :=
  run_invariant Inv inv_step tr init c inv_init hr

theorem returned_eq_range_mod {T : Type} (c : List (Obs T) × Server T) (hc : Inv c) :
    handles_returned c.1
      = (List.range (handles_returned c.1).length).map (fun k => k % SIZE_MODULUS) := by
  have h := hc.handles
  rw [submissions_fst] at h
  have hl : (submissions c.1).length = (handles_returned c.1).length := by
    rw [← submissions_fst, List.length_map]
  rw [hl] at h
  exact h

theorem range_mod_eq (n : Nat) (hn : n ≤ SIZE_MODULUS) :
    (List.range n).map (fun k => k % SIZE_MODULUS) = List.range n := by
  conv_rhs => rw [← List.map_id (List.range n)]
  apply List.map_congr_left
  intro k hk
  have : k < n := List.mem_range.1 hk
  simp only [id]
  exact Nat.mod_eq_of_lt (by omega)

theorem returned_eq_range {T : Type} (c : List (Obs T) × Server T) (hc : Inv c)
    (hn : (handles_returned c.1).length ≤ SIZE_MODULUS) :
    handles_returned c.1 = List.range (handles_returned c.1).length := by
  have h := returned_eq_range_mod c hc
  rw [range_mod_eq _ hn] at h
  exact h

theorem step_returned_length {T : Type} (e : Event T) (s : Server T) (r : Obs T × Server T)
    (h : step e s = some r) :
    (handles_returned [r.1]).length = submitted_count [e] := by
  cases e <;> simp only [step, Option.map_eq_some', Option.some.injEq] at h
  all_goals
    obtain ⟨_, _, rfl⟩ := h
    simp [handles_returned, submitted_count]

theorem run_returned_length {T : Type} (tr : List (Event T)) (c c' : List (Obs T) × Server T)
    (hr : run tr c = some c') :
    (handles_returned c'.1).length = (handles_returned c.1).length + submitted_count tr := by
  induction tr generalizing c with
  | nil =>
      simp only [run, Option.some.injEq] at hr
      subst hr
      simp [submitted_count]
  | cons e es ih =>
      simp only [run] at hr
      cases hs : step e c.2 with
      | none => simp [hs] at hr
      | some r =>
          simp only [hs] at hr
          have h1 := ih _ hr
          have h2 := step_returned_length e c.2 r hs
          simp only [handles_returned_append, List.length_append] at h1
          have h3 : submitted_count (e :: es) = submitted_count [e] + submitted_count es := by
            cases e <;> simp [submitted_count]
            omega
          omega

/-- C2: along every schedule from the freshly constructed server, whatever dispatcher and
`request_result` steps are interleaved, no `add_task` call is lost, the `k`-th call (from 0)
returns handle `k` when `k < 2^64`, and as long as at most `2^64` calls were made the
handles returned are exactly `0, 1, ..., n-1`: strictly increasing and pairwise distinct. -/
theorem add_task_handles_sequential {T : Type} (tr : List (Event T))
    (c : List (Obs T) × Server T) (hr : run tr init = some c) :
    (handles_returned c.1).length = submitted_count tr ∧
    (∀ k, k < submitted_count tr → k < SIZE_MODULUS → (handles_returned c.1)[k]? = some k) ∧
    (submitted_count tr ≤ SIZE_MODULUS →
      handles_returned c.1 = List.range (submitted_count tr) ∧
      List.Pairwise (fun a b => a < b) (handles_returned c.1) ∧
      (handles_returned c.1).Nodup) := by
  have hc := inv_reachable tr c hr
  have hlen : (handles_returned c.1).length = submitted_count tr := by
    have := run_returned_length tr init c hr
    simpa [init, handles_returned] using this
  have hmod := returned_eq_range_mod c hc
  rw [hlen] at hmod
  refine ⟨hlen, ?_, ?_⟩
  · intro k hk hkM
    rw [hmod]
    simp [List.getElem?_map, List.getElem?_range hk, Nat.mod_eq_of_lt hkM]
  · intro hn
    have h := returned_eq_range c hc (by rw [hlen]; exact hn)
    rw [hlen] at h
    refine ⟨h, ?_, ?_⟩
    · rw [h]; exact List.pairwise_lt_range _
    · rw [h]; exact List.nodup_range _

/-- Witness of C2 on `schedule_three`: the three calls return 0, 1 and 2. -/
theorem add_task_handles_sequential_witness :
    run schedule_three init = some after_three ∧
    (handles_returned after_three.1).length = submitted_count schedule_three ∧
    (∀ k, k < submitted_count schedule_three → k < SIZE_MODULUS →
      (handles_returned after_three.1)[k]? = some k) ∧
    (submitted_count schedule_three ≤ SIZE_MODULUS →
      handles_returned after_three.1 = List.range (submitted_count schedule_three) ∧
      List.Pairwise (fun a b => a < b) (handles_returned after_three.1) ∧
      (handles_returned after_three.1).Nodup) :=
  ⟨rfl, add_task_handles_sequential schedule_three after_three rfl⟩

/-- C7, counterexample: after `add_task` returned handle 0 and the dispatcher moved the
entry out of the queue (lines 57-59), handle 0 has not been retrieved and is neither in
the pending queue nor in the result map. -/
theorem handle_in_neither_while_awaited :
    run schedule_in_flight init = some after_in_flight ∧
    0 ∈ handles_returned after_in_flight.1 ∧
    0 ∉ handles_retrieved after_in_flight.1 ∧
    0 ∉ queued_handles after_in_flight.2 ∧
    0 ∉ completed_handles after_in_flight.2 := by
  refine ⟨rfl, ?_, ?_, ?_, ?_⟩ <;>
    simp [after_in_flight, handles_returned, handles_retrieved, queued_handles,
      completed_handles]

/-- C7, amended: in every reachable state every handle that `add_task` has returned and
`request_result` has not consumed is in the pending queue, or in the dispatcher's local
`task_pair` (dequeued, awaiting publication), or in the result map. -/
theorem handle_in_queue_dispatcher_or_results {T : Type} (tr : List (Event T))
    (c : List (Obs T) × Server T) (hr : run tr init = some c) (h : Nat)
    (hret : h ∈ handles_returned c.1) (hnot : h ∉ handles_retrieved c.1) :
    h ∈ queued_handles c.2 ∨ h ∈ held_handles c.2 ∨ h ∈ completed_handles c.2 := by
  have hc := inv_reachable tr c hr
  have hf := congrArg (List.map Prod.fst) hc.fifo
  rw [submissions_fst] at hf
  rw [← hf] at hret
  simp only [List.map_append, List.mem_append] at hret
  rcases hret with (hp | hh) | hq
  · rcases hc.kept h hp with h1 | h1
    · exact Or.inr (Or.inr h1)
    · exact absurd h1 hnot
  · right; left
    simp only [held_pairs, held_handles] at hh ⊢
    cases hth : c.2.server_thread <;> simp_all
  · left
    simp only [queued_pairs, queued_handles, List.map_map] at hq ⊢
    exact hq

/-- Witness of the amended C7 on `schedule_in_flight`: handle 0 is held by the dispatcher. -/
theorem handle_in_queue_dispatcher_or_results_witness :
    run schedule_in_flight init = some after_in_flight ∧
    0 ∈ handles_returned after_in_flight.1 ∧
    0 ∉ handles_retrieved after_in_flight.1 ∧
    (0 ∈ queued_handles after_in_flight.2 ∨ 0 ∈ held_handles after_in_flight.2 ∨
      0 ∈ completed_handles after_in_flight.2) :=
  ⟨rfl, by simp [after_in_flight, handles_returned],
    by simp [after_in_flight, handles_retrieved],
    handle_in_queue_dispatcher_or_results schedule_in_flight after_in_flight rfl 0
      (by simp [after_in_flight, handles_returned])
      (by simp [after_in_flight, handles_retrieved])⟩

/-- C5, counterexample: after handle 0 was published and retrieved once, a second
`request_result(0)` does not return anything, neither a value nor an error: its wait
predicate is false and the caller stays blocked. -/
theorem second_request_blocks :
    run schedule_retrieved init = some after_retrieved ∧
    0 ∈ handles_published after_retrieved.1 ∧
    request_result 0 after_retrieved.2 = none :=
  ⟨rfl, by simp [after_retrieved, handles_published, publications], rfl⟩

/-- C9, counterexample: the queue is empty and `stop()` has set `running` to false while
the dispatcher holds the dequeued entry of handle 0; `process_tasks` then publishes that
result before it returns, so the result map changes. -/
theorem shutdown_publishes_held_entry :
    run schedule_stop_while_holding init = some after_stop_while_holding ∧
    after_stop_while_holding.2.tasks = [] ∧
    after_stop_while_holding.2.running = false ∧
    after_stop_while_holding.2.results = [] ∧
    process_tasks 3 after_stop_while_holding.2
      = some { after_stop_while_holding.2 with
                server_thread := Thread.finished, results := [(0, 10)] } :=
  ⟨rfl, rfl, rfl, rfl, rfl⟩

/-- C9, amended: in every state in which the queue is empty, `stop()` has set `running`
to false and the dispatcher is between iterations (at the `while (running)` test or in
`cond_var.wait`, holding no dequeued entry), the next dispatcher step makes
`process_tasks` return, and the loop terminates with the result map, the queue and
`next_task_id` unchanged: nothing is dequeued or published. -/
theorem process_tasks_idle_shutdown {T : Type} (s : Server T) (fuel : Nat)
    (hq : s.tasks = []) (hrun : s.running = false)
    (hidle : s.server_thread = Thread.loop_head ∨ s.server_thread = Thread.waiting) :
    dispatcher_step s = some { s with server_thread := Thread.finished } ∧
    process_tasks (fuel + 2) s = some { s with server_thread := Thread.finished } := by
  rcases hidle with h | h
  · have h1 : dispatcher_step s = some { s with server_thread := Thread.finished } := by
      simp [dispatcher_step, loop_test, h, hrun]
    exact ⟨h1, by simp [process_tasks, h, h1]⟩
  · have h1 : dispatcher_step s = some { s with server_thread := Thread.finished } := by
      simp [dispatcher_step, dequeue, h, hrun, hq]
    exact ⟨h1, by simp [process_tasks, h, h1]⟩

/-- Witness of the amended C9 on a dispatcher waiting on the empty queue after `stop()`. -/
theorem process_tasks_idle_shutdown_witness :
    server_idle_stopping.tasks = [] ∧ server_idle_stopping.running = false ∧
    (server_idle_stopping.server_thread = Thread.loop_head ∨
      server_idle_stopping.server_thread = Thread.waiting) ∧
    dispatcher_step server_idle_stopping
      = some { server_idle_stopping with server_thread := Thread.finished } ∧
    process_tasks (0 + 2) server_idle_stopping
      = some { server_idle_stopping with server_thread := Thread.finished } :=
  ⟨rfl, rfl, Or.inr rfl,
    process_tasks_idle_shutdown server_idle_stopping 0 rfl rfl (Or.inr rfl)⟩

/-- C4, evaluation at the failing input: with three tasks pending when `stop()` is called,
the dispatcher publishes handle 0 only, leaves `while (running)` and returns; `stop()`
returns while handles 1 and 2 are still queued and unpublished.  When the dispatcher
thread has not yet reached its first loop test, all three are left behind. -/
theorem stop_leaves_pending_entries :
    (run schedule_stop_three_pending init = some after_stop_three_pending ∧
      Obs.stopped ∈ after_stop_three_pending.1 ∧
      queued_handles after_stop_three_pending.2 = [1, 2] ∧
      handles_published after_stop_three_pending.1 = [0]) ∧
    (run schedule_stop_three_early init = some after_stop_three_early ∧
      Obs.stopped ∈ after_stop_three_early.1 ∧
      queued_handles after_stop_three_early.2 = [0, 1, 2] ∧
      handles_published after_stop_three_early.1 = []) := by
  refine ⟨⟨rfl, ?_, rfl, rfl⟩, ⟨rfl, ?_, rfl, rfl⟩⟩
  · simp [after_stop_three_pending]
  · simp [after_stop_three_early]

/-- Once `process_tasks` has returned, no transition other than a new `start()` publishes
anything or takes an entry out of the queue. -/
theorem step_after_return {T : Type} (e : Event T) (s : Server T) (r : Obs T × Server T)
    (hs : step e s = some r) (hne : e ≠ Event.start)
    (hth : s.server_thread = Thread.finished ∨ s.server_thread = Thread.joined) :
    (r.2.server_thread = Thread.finished ∨ r.2.server_thread = Thread.joined) ∧
    publications [r.1] = [] ∧
    ∃ more, queued_pairs r.2 = queued_pairs s ++ more := by
  cases e with
  | start => exact absurd rfl hne
  | stop_signal =>
      simp only [step, Option.some.injEq] at hs
      subst hs
      exact ⟨by simpa [stop_signal] using hth, by simp [publications],
        ⟨[], by simp [stop_signal, queued_pairs]⟩⟩
  | stop_join =>
      simp only [step, stop_join, Option.map_eq_some'] at hs
      obtain ⟨s1, hs1, rfl⟩ := hs
      rcases hth with h | h <;> simp only [h] at hs1
      · simp only [Option.some.injEq] at hs1
        subst hs1
        exact ⟨Or.inr rfl, by simp [publications], ⟨[], by simp [queued_pairs]⟩⟩
      · cases hs1
  | add_task task =>
      simp only [step, Option.some.injEq] at hs
      subst hs
      exact ⟨by simpa [add_task] using hth, by simp [publications],
        ⟨[(s.next_task_id, task ())], by simp [add_task, queued_pairs, async]⟩⟩
  | request_result k =>
      simp only [step, request_result, Option.map_eq_some'] at hs
      obtain ⟨r1, hr1, rfl⟩ := hs
      cases hf : map_find s.results k with
      | none => simp [hf] at hr1
      | some v =>
          simp only [hf, Option.some.injEq] at hr1
          subst hr1
          exact ⟨by simpa using hth, by simp [publications], ⟨[], by simp [queued_pairs]⟩⟩
  | loop_test =>
      simp only [step, loop_test, Option.map_eq_some'] at hs
      obtain ⟨s1, hs1, rfl⟩ := hs
      rcases hth with h | h <;> simp [h] at hs1
  | dequeue =>
      simp only [step, dequeue, Option.map_eq_some'] at hs
      obtain ⟨s1, hs1, rfl⟩ := hs
      rcases hth with h | h <;> simp [h] at hs1
  | publish =>
      simp only [step, publish, Option.map_eq_some'] at hs
      obtain ⟨r1, hr1, rfl⟩ := hs
      rcases hth with h | h <;> simp [h] at hr1
  | complete_held =>
      simp only [step, complete_held, Option.map_eq_some'] at hs
      obtain ⟨s1, hs1, rfl⟩ := hs
      rcases hth with h | h <;> simp [h] at hs1
  | complete_queued i =>
      simp only [step, complete_queued, Option.map_eq_some'] at hs
      obtain ⟨s1, ⟨q, hq, rfl⟩, rfl⟩ := hs
      exact ⟨by simpa using hth, by simp [publications],
        ⟨[], by simp [queued_pairs, finish_at_pairs _ _ _ hq]⟩⟩

theorem run_after_return {T : Type} (tr : List (Event T)) (c c' : List (Obs T) × Server T)
    (hth : c.2.server_thread = Thread.finished ∨ c.2.server_thread = Thread.joined)
    (hno : Event.start ∉ tr) (hr : run tr c = some c') :
    publications c'.1 = publications c.1 ∧
    ∃ more, queued_pairs c'.2 = queued_pairs c.2 ++ more := by
  induction tr generalizing c with
  | nil =>
      simp only [run, Option.some.injEq] at hr
      subst hr
      exact ⟨rfl, [], by simp⟩
  | cons e es ih =>
      simp only [run] at hr
      have hne : e ≠ Event.start := fun he => hno (he ▸ List.mem_cons_self _ _)
      have hno' : Event.start ∉ es := fun hm => hno (List.mem_cons_of_mem _ hm)
      cases hs : step e c.2 with
      | none => simp [hs] at hr
      | some r =>
          simp only [hs] at hr
          obtain ⟨h1, h2, m1, h3⟩ := step_after_return e c.2 r hs hne hth
          obtain ⟨h4, m2, h5⟩ := ih _ h1 hno' hr
          refine ⟨?_, m1 ++ m2, ?_⟩
          · rw [h4]
            simp only [publications_append, h2, List.append_nil]
          · rw [h5]
            simp only [h3, List.append_assoc]

/-- C8, counterexample: `stop()` sets `running` to false and the dispatcher returns on the
empty queue; an `add_task` call made after that is not rejected but returns handle 0,
`stop()` returns, and the entry of handle 0 is left in the queue, never published. -/
theorem submission_after_stop_lost :
    run schedule_submit_after_stop init = some after_submit_after_stop ∧
    handles_returned after_submit_after_stop.1 = [0] ∧
    Obs.stopped ∈ after_submit_after_stop.1 ∧
    0 ∈ queued_handles after_submit_after_stop.2 ∧
    0 ∉ handles_published after_submit_after_stop.1 := by
  refine ⟨rfl, rfl, ?_, ?_, ?_⟩ <;>
    simp [after_submit_after_stop, queued_handles, handles_published, publications]

/-- C8, amended: an `add_task` call made after `stop()` has set `running` to false is never
rejected: it returns the next handle and appends its entry to the queue, like any other
call, and `running` stays false.  Once `process_tasks` has returned, that entry stays
in the queue and nothing is published any more along every later schedule in which
`start()` is not called again. -/
theorem add_task_after_stop {T : Type} (task : Unit → T) (s : Server T)
    (hstop : s.running = false) :
    step (Event.add_task task) s
      = some (Obs.submitted s.next_task_id task, (add_task task s).2) ∧
    (add_task task s).1 = s.next_task_id ∧
    (add_task task s).2.tasks = s.tasks ++ [(s.next_task_id, async task)] ∧
    (add_task task s).2.running = false ∧
    (s.server_thread = Thread.finished ∨ s.server_thread = Thread.joined →
      ∀ (tr : List (Event T)) (log : List (Obs T)) (c' : List (Obs T) × Server T),
        Event.start ∉ tr →
        run tr (log, (add_task task s).2) = some c' →
        publications c'.1 = publications log ∧
        ∃ more, queued_pairs c'.2 = queued_pairs s ++ (s.next_task_id, task ()) :: more) := by
  refine ⟨rfl, rfl, rfl, hstop, ?_⟩
  intro hth tr log c' hno hr
  obtain ⟨h1, more, h2⟩ := run_after_return tr (log, (add_task task s).2) c' hth hno hr
  refine ⟨h1, more, ?_⟩
  rw [h2]
  simp [add_task, queued_pairs, async]

/-- Witness of the amended C8 on a server whose dispatcher has returned after `stop()`. -/
theorem add_task_after_stop_witness :
    server_stopped.running = false ∧
    step (Event.add_task (task_const 10)) server_stopped
      = some (Obs.submitted server_stopped.next_task_id (task_const 10),
          (add_task (task_const 10) server_stopped).2) ∧
    (add_task (task_const 10) server_stopped).1 = server_stopped.next_task_id ∧
    (add_task (task_const 10) server_stopped).2.tasks
      = server_stopped.tasks ++ [(server_stopped.next_task_id, async (task_const 10))] ∧
    (add_task (task_const 10) server_stopped).2.running = false ∧
    (server_stopped.server_thread = Thread.finished ∨
        server_stopped.server_thread = Thread.joined →
      ∀ (tr : List (Event Nat)) (log : List (Obs Nat)) (c' : List (Obs Nat) × Server Nat),
        Event.start ∉ tr →
        run tr (log, (add_task (task_const 10) server_stopped).2) = some c' →
        publications c'.1 = publications log ∧
        ∃ more, queued_pairs c'.2
          = queued_pairs server_stopped ++ (server_stopped.next_task_id, task_const 10 ()) :: more) :=
  ⟨rfl, add_task_after_stop (task_const 10) server_stopped rfl⟩

theorem initial_segment_range_mod (l rest : List Nat) (n : Nat)
    (h : l ++ rest = (List.range n).map (fun k => k % SIZE_MODULUS)) :
    l = (List.range l.length).map (fun k => k % SIZE_MODULUS) ∧ l.length ≤ n := by
  have hlen : l.length ≤ n := by
    have := congrArg List.length h
    simp only [List.length_append, List.length_map, List.length_range] at this
    omega
  have h1 : l = List.take l.length (l ++ rest) := (List.take_left l rest).symm
  rw [h, ← List.map_take, List.take_range, Nat.min_eq_left hlen] at h1
  exact ⟨h1, hlen⟩

theorem published_eq_range_mod {T : Type} (c : List (Obs T) × Server T) (hc : Inv c) :
    handles_published c.1
      = (List.range (handles_published c.1).length).map (fun k => k % SIZE_MODULUS) ∧
    (handles_published c.1).length ≤ (handles_returned c.1).length := by
  have hf := congrArg (List.map Prod.fst) hc.fifo
  rw [submissions_fst, returned_eq_range_mod c hc] at hf
  simp only [List.map_append, List.append_assoc] at hf
  exact initial_segment_range_mod _ _ _ hf

theorem completed_subset_published {T : Type} (c : List (Obs T) × Server T) (hc : Inv c)
    (h : Nat) (hm : h ∈ completed_handles c.2) : h ∈ handles_published c.1 := by
  simp only [completed_handles, mem_keys_iff] at hm
  cases hf : map_find c.2.results h with
  | none => exact absurd hf hm
  | some v =>
      have := hc.stored h v hf
      simp only [handles_published, List.mem_map]
      exact ⟨(h, v), this, rfl⟩

theorem value_unique_of_nodup_keys {T : Type} (l : List (Nat × T))
    (hn : (l.map Prod.fst).Nodup) (k : Nat) (v v' : T)
    (h1 : (k, v) ∈ l) (h2 : (k, v') ∈ l) : v = v' := by
  induction l with
  | nil => cases h1
  | cons p l ih =>
      simp only [List.map_cons, List.nodup_cons, List.mem_map, not_exists, not_and] at hn
      rcases List.mem_cons.1 h1 with e1 | m1 <;> rcases List.mem_cons.1 h2 with e2 | m2
      · have := e1.trans e2.symm
        simpa using this
      · exact absurd (by rw [← e1]) (hn.1 (k, v') m2)
      · exact absurd (by rw [← e2]) (hn.1 (k, v) m1)
      · exact ih hn.2 m1 m2

/-- C6, amended: in every state reachable from the freshly constructed server by a schedule
with at most `2^64` `add_task` calls, no handle is at once in the pending queue and in the
result map. -/
theorem queue_and_results_disjoint {T : Type} (tr : List (Event T))
    (c : List (Obs T) × Server T) (hr : run tr init = some c)
    (hn : submitted_count tr ≤ SIZE_MODULUS) (h : Nat)
    (hq : h ∈ queued_handles c.2) : h ∉ completed_handles c.2 := by
  have hc := inv_reachable tr c hr
  have hlen : (handles_returned c.1).length = submitted_count tr := by
    have := run_returned_length tr init c hr
    simpa [init, handles_returned] using this
  intro hm
  have hp := completed_subset_published c hc h hm
  have hf := congrArg (List.map Prod.fst) hc.fifo
  rw [submissions_fst, returned_eq_range c hc (by rw [hlen]; exact hn)] at hf
  have hnd : ((publications c.1 ++ held_pairs c.2 ++ queued_pairs c.2).map Prod.fst).Nodup := by
    rw [hf]; exact List.nodup_range _
  simp only [List.map_append, List.append_assoc] at hnd
  have hdis := List.disjoint_of_nodup_append hnd
  have hq' : h ∈ List.map Prod.fst (held_pairs c.2) ++ List.map Prod.fst (queued_pairs c.2) := by
    apply List.mem_append_right
    simpa [queued_pairs, queued_handles, List.map_map] using hq
  exact hdis hp hq'

/-- Witness of the amended C6 on `schedule_two_published`: handle 2 is queued and has no
completed result. -/
theorem queue_and_results_disjoint_witness :
    run schedule_two_published init = some after_two_published ∧
    submitted_count schedule_two_published ≤ SIZE_MODULUS ∧
    2 ∈ queued_handles after_two_published.2 ∧
    2 ∉ completed_handles after_two_published.2 :=
  ⟨rfl, by decide, by simp [after_two_published, queued_handles],
    queue_and_results_disjoint schedule_two_published after_two_published rfl (by decide) 2
      (by simp [after_two_published, queued_handles])⟩

/-- C1, amended: in every state reachable by a schedule with at most `2^64` `add_task`
calls, if `add_task(f)` returned handle `h`, then every value `request_result(h)` returns
is the value produced by `f`, and once the dispatcher has published `h` and `h` has not
been retrieved yet, `request_result(h)` does return that value. -/
theorem round_trip {T : Type} (tr : List (Event T)) (c : List (Obs T) × Server T)
    (hr : run tr init = some c) (hn : submitted_count tr ≤ SIZE_MODULUS)
    (h : Nat) (f : Unit → T) (hsub : Obs.submitted h f ∈ c.1) :
    (∀ v s', request_result h c.2 = some (v, s') → v = f ()) ∧
    (h ∈ handles_published c.1 → h ∉ handles_retrieved c.1 →
      request_result h c.2 = some (f (), { c.2 with results := map_erase c.2.results h })) := by
  have hc := inv_reachable tr c hr
  have hlen : (handles_returned c.1).length = submitted_count tr := by
    have := run_returned_length tr init c hr
    simpa [init, handles_returned] using this
  have hnd : ((submissions c.1).map Prod.fst).Nodup := by
    rw [submissions_fst, returned_eq_range c hc (by rw [hlen]; exact hn)]
    exact List.nodup_range _
  have hstored : ∀ v, map_find c.2.results h = some v → v = f () := by
    intro v hv
    have h1 : (h, v) ∈ submissions c.1 := by
      rw [← hc.fifo]
      exact List.mem_append_left _ (List.mem_append_left _ (hc.stored h v hv))
    exact value_unique_of_nodup_keys _ hnd h v (f ()) h1 (mem_submissions c.1 h f hsub)
  constructor
  · intro v s' hreq
    cases hf : map_find c.2.results h with
    | none => simp [request_result, hf] at hreq
    | some w =>
        simp only [request_result, hf, Option.some.injEq, Prod.mk.injEq] at hreq
        rw [← hreq.1]
        exact hstored w hf
  · intro hp hnr
    rcases hc.kept h hp with hk | hk
    · simp only [completed_handles, mem_keys_iff] at hk
      cases hf : map_find c.2.results h with
      | none => exact absurd hf hk
      | some w =>
          have := hstored w hf
          subst this
          simp [request_result, hf]
    · exact absurd hk hnr

/-- Witness of the amended C1 on `schedule_two_published`: handle 1 yields 11. -/
theorem round_trip_witness :
    run schedule_two_published init = some after_two_published ∧
    submitted_count schedule_two_published ≤ SIZE_MODULUS ∧
    Obs.submitted 1 (task_const 11) ∈ after_two_published.1 ∧
    (∀ v s', request_result 1 after_two_published.2 = some (v, s') → v = task_const 11 ()) ∧
    (1 ∈ handles_published after_two_published.1 →
      1 ∉ handles_retrieved after_two_published.1 →
      request_result 1 after_two_published.2
        = some (task_const 11 (),
            { after_two_published.2 with
              results := map_erase after_two_published.2.results 1 })) :=
  ⟨rfl, by decide, by simp [after_two_published],
    round_trip schedule_two_published after_two_published rfl (by decide) 1 (task_const 11)
      (by simp [after_two_published])⟩

/-- C3, amended: along every schedule, whatever the order in which the computations
finish, when the dispatcher publishes handle `h2` every handle `h1 < h2` has already been
published; and as long as at most `2^64` tasks have been submitted the handles published
are `0, 1, ..., m-1` in this order, a strictly increasing sequence. -/
theorem publication_in_submission_order {T : Type} (tr : List (Event T))
    (c : List (Obs T) × Server T) (hr : run tr init = some c) :
    (∀ (l1 l2 : List (Obs T)) (h2 : Nat) (v : T), c.1 = l1 ++ Obs.published h2 v :: l2 →
      ∀ h1, h1 < h2 → h1 ∈ handles_published l1) ∧
    (submitted_count tr ≤ SIZE_MODULUS →
      handles_published c.1 = List.range (handles_published c.1).length ∧
      List.Pairwise (fun a b => a < b) (handles_published c.1)) := by
  have hc := inv_reachable tr c hr
  have hlen : (handles_returned c.1).length = submitted_count tr := by
    have := run_returned_length tr init c hr
    simpa [init, handles_returned] using this
  obtain ⟨hpm, hple⟩ := published_eq_range_mod c hc
  constructor
  · intro l1 l2 h2 v hlog h1 hlt
    have hsplit : handles_published c.1
        = (handles_published l1 ++ [h2]) ++ handles_published l2 := by
      rw [hlog]
      simp [handles_published, publications_append, publications]
    rw [hsplit] at hpm
    have hseg := (initial_segment_range_mod _ _ _ hpm).1
    simp only [List.length_append, List.length_singleton, List.range_succ, List.map_append,
      List.map_cons, List.map_nil] at hseg
    have hl : (handles_published l1).length
        = ((List.range (handles_published l1).length).map
            (fun k => k % SIZE_MODULUS)).length := by simp
    obtain ⟨hpre, hlast⟩ := List.append_inj hseg hl
    simp only [List.cons.injEq, and_true] at hlast
    have hM : h2 < SIZE_MODULUS := by
      rw [hlast]; exact Nat.mod_lt _ (by decide)
    have hj : h2 ≤ (handles_published l1).length := by
      rw [hlast]; exact Nat.mod_le _ _
    rw [hpre]
    simp only [List.mem_map, List.mem_range, List.length_map, List.length_range]
    exact ⟨h1, by omega, Nat.mod_eq_of_lt (by omega)⟩
  · intro hn
    have h := hpm
    rw [range_mod_eq _ (by omega)] at h
    exact ⟨h, by rw [h]; exact List.pairwise_lt_range _⟩

/-- Witness of the amended C3 on `schedule_two_published`, where the computation of
handle 1 finishes before that of handle 0 and is still published after it. -/
theorem publication_in_submission_order_witness :
    run schedule_two_published init = some after_two_published ∧
    (∀ (l1 l2 : List (Obs Nat)) (h2 : Nat) (v : Nat),
      after_two_published.1 = l1 ++ Obs.published h2 v :: l2 →
      ∀ h1, h1 < h2 → h1 ∈ handles_published l1) ∧
    (submitted_count schedule_two_published ≤ SIZE_MODULUS →
      handles_published after_two_published.1
        = List.range (handles_published after_two_published.1).length ∧
      List.Pairwise (fun a b => a < b) (handles_published after_two_published.1)) :=
  ⟨rfl, publication_in_submission_order schedule_two_published after_two_published rfl⟩

theorem submitted_count_cons {T : Type} (e : Event T) (es : List (Event T)) :
    submitted_count (e :: es) = submitted_count [e] + submitted_count es := by
  cases e <;> simp [submitted_count]
  omega

theorem submitted_count_append {T : Type} (t1 t2 : List (Event T)) :
    submitted_count (t1 ++ t2) = submitted_count t1 + submitted_count t2 := by
  induction t1 with
  | nil => simp [submitted_count]
  | cons e es ih =>
      rw [List.cons_append, submitted_count_cons, ih, submitted_count_cons e es]
      omega

theorem run_log_extends {T : Type} (tr : List (Event T)) (c c' : List (Obs T) × Server T)
    (hr : run tr c = some c') : ∃ new, c'.1 = c.1 ++ new := by
  induction tr generalizing c with
  | nil =>
      simp only [run, Option.some.injEq] at hr
      subst hr
      exact ⟨[], by simp⟩
  | cons e es ih =>
      simp only [run] at hr
      cases hs : step e c.2 with
      | none => simp [hs] at hr
      | some r =>
          simp only [hs] at hr
          obtain ⟨new, hnew⟩ := ih _ hr
          exact ⟨r.1 :: new, by rw [hnew]; simp⟩

/-- A handle without a completed result gets one only by a publication under it. -/
theorem step_keeps_blocked {T : Type} (e : Event T) (s : Server T) (r : Obs T × Server T)
    (h : Nat) (hs : step e s = some r) (hb : map_find s.results h = none) :
    map_find r.2.results h = none ∨ h ∈ handles_published [r.1] := by
  rcases step_effect e s r hs with
    ⟨_, hres, _, _⟩ | ⟨_, hres, _, _⟩ | ⟨task, _, hres, _, _, _⟩ |
    ⟨k, v, _, _, hres, _, _, _⟩ | ⟨k, v, ho, hres, _, _, _, _⟩
  · left; rw [hres]; exact hb
  · left; rw [hres]; exact hb
  · left; rw [hres]; exact hb
  · left
    rw [hres, map_find_erase]
    by_cases hk : k = h
    · simp [hk]
    · simp [hk, hb]
  · by_cases hk : k = h
    · right
      rw [ho, hk]
      simp [handles_published, publications]
    · left
      rw [hres, map_find_assign]
      simp [hk, hb]

/-- A handle without a completed result stays without one along every schedule, up to
the next publication under that handle. -/
theorem run_keeps_blocked {T : Type} (h : Nat) (tr : List (Event T))
    (c c' : List (Obs T) × Server T) (hr : run tr c = some c')
    (hb : map_find c.2.results h = none) :
    ∃ new, c'.1 = c.1 ++ new ∧
      (h ∉ handles_published new → map_find c'.2.results h = none) := by
  induction tr generalizing c with
  | nil =>
      simp only [run, Option.some.injEq] at hr
      subst hr
      exact ⟨[], by simp, fun _ => hb⟩
  | cons e es ih =>
      simp only [run] at hr
      cases hs : step e c.2 with
      | none => simp [hs] at hr
      | some r =>
          simp only [hs] at hr
          rcases step_keeps_blocked e c.2 r h hs hb with h1 | h1
          · obtain ⟨new, hnew, himp⟩ := ih _ hr h1
            refine ⟨r.1 :: new, by rw [hnew]; simp, ?_⟩
            intro hnot
            apply himp
            intro hm
            apply hnot
            have : handles_published (r.1 :: new)
                = handles_published [r.1] ++ handles_published new :=
              handles_published_append [r.1] new
            rw [this]
            exact List.mem_append_right _ hm
          · obtain ⟨new, hnew⟩ := run_log_extends es _ c' hr
            refine ⟨r.1 :: new, by rw [hnew]; simp, ?_⟩
            intro hnot
            exfalso
            apply hnot
            have : handles_published (r.1 :: new)
                = handles_published [r.1] ++ handles_published new :=
              handles_published_append [r.1] new
            rw [this]
            exact List.mem_append_left _ h1

/-- Every retrieval of a handle, and every completed result still stored under it, is
matched by a publication of its own under that handle. -/
theorem retrieved_le_published {T : Type} (tr : List (Event T))
    (c : List (Obs T) × Server T) (hr : run tr init = some c) (k : Nat) :
    (handles_retrieved c.1).count k + (if (map_find c.2.results k).isSome then 1 else 0)
      ≤ (handles_published c.1).count k := by
  have hall : ∀ k, (handles_retrieved c.1).count k
      + (if (map_find c.2.results k).isSome then 1 else 0)
      ≤ (handles_published c.1).count k := by
    refine run_invariant
      (fun c => ∀ k, (handles_retrieved c.1).count k
        + (if (map_find c.2.results k).isSome then 1 else 0)
        ≤ (handles_published c.1).count k) ?_ tr init c ?_ hr
    · intro c e r hc hs k
      obtain ⟨log, s⟩ := c
      obtain ⟨o, s'⟩ := r
      have hk := hc k
      simp only at hk ⊢
      rcases step_effect e s (o, s') hs with
        ⟨ho, hres, _, _⟩ | ⟨ho, hres, _, _⟩ | ⟨task, ho, hres, _, _, _⟩ |
        ⟨k', v, ho, hfind, hres, _, _, _⟩ | ⟨k', v, ho, hres, _, _, _, _⟩
      · simp only at ho hres
        subst ho
        have h1 : handles_retrieved (log ++ [Obs.silent]) = handles_retrieved log := by
          simp [handles_retrieved_append, handles_retrieved]
        have h2 : handles_published (log ++ [Obs.silent]) = handles_published log := by
          rw [handles_published_append]; simp [handles_published, publications]
        rw [h1, h2, hres]
        exact hk
      · simp only at ho hres
        subst ho
        have h1 : handles_retrieved (log ++ [Obs.stopped]) = handles_retrieved log := by
          simp [handles_retrieved_append, handles_retrieved]
        have h2 : handles_published (log ++ [Obs.stopped]) = handles_published log := by
          rw [handles_published_append]; simp [handles_published, publications]
        rw [h1, h2, hres]
        exact hk
      · simp only at ho hres
        subst ho
        have h1 : handles_retrieved (log ++ [Obs.submitted s.next_task_id task])
            = handles_retrieved log := by
          simp [handles_retrieved_append, handles_retrieved]
        have h2 : handles_published (log ++ [Obs.submitted s.next_task_id task])
            = handles_published log := by
          rw [handles_published_append]; simp [handles_published, publications]
        rw [h1, h2, hres]
        exact hk
      · simp only at ho hfind hres
        subst ho
        have h1 : handles_retrieved (log ++ [Obs.retrieved k' v])
            = handles_retrieved log ++ [k'] := by
          simp [handles_retrieved_append, handles_retrieved]
        have h2 : handles_published (log ++ [Obs.retrieved k' v])
            = handles_published log := by
          rw [handles_published_append]; simp [handles_published, publications]
        rw [h1, h2, hres, List.count_append, map_find_erase]
        by_cases hkk : k' = k
        · subst hkk
          simp only [hfind, Option.isSome_some, if_true] at hk
          simp only [if_true, Option.isSome_none, List.count_singleton_self,
            Bool.false_eq_true, if_false]
          omega
        · have hne : k ≠ k' := fun h => hkk h.symm
          simp only [hkk, if_false, List.count_cons_of_ne hne, List.count_nil]
          omega
      · simp only at ho hres
        subst ho
        have h1 : handles_retrieved (log ++ [Obs.published k' v])
            = handles_retrieved log := by
          simp [handles_retrieved_append, handles_retrieved]
        have h2 : handles_published (log ++ [Obs.published k' v])
            = handles_published log ++ [k'] := by
          rw [handles_published_append]; simp [handles_published, publications]
        rw [h1, h2, hres, List.count_append, map_find_assign]
        by_cases hkk : k' = k
        · subst hkk
          simp only [if_true, Option.isSome_some, List.count_singleton_self]
          split at hk <;> omega
        · have hne : k ≠ k' := fun h => hkk h.symm
          simp only [hkk, if_false, List.count_cons_of_ne hne, List.count_nil]
          omega
    · intro k
      simp [init, Server.new, handles_retrieved, handles_published, publications, map_find]
  exact hall k

/-- With at most `2^64` submissions a handle that has been retrieved has no completed
result in any later state. -/
theorem retrieved_not_completed {T : Type} (tr : List (Event T))
    (c : List (Obs T) × Server T) (hr : run tr init = some c)
    (hn : submitted_count tr ≤ SIZE_MODULUS) (h : Nat)
    (hret : h ∈ handles_retrieved c.1) : map_find c.2.results h = none := by
  have hc := inv_reachable tr c hr
  have hlen : (handles_returned c.1).length = submitted_count tr := by
    have := run_returned_length tr init c hr
    simpa [init, handles_returned] using this
  obtain ⟨hpm, hple⟩ := published_eq_range_mod c hc
  rw [range_mod_eq _ (by omega)] at hpm
  have hnd : (handles_published c.1).Nodup := by
    rw [hpm]; exact List.nodup_range _
  have h1 := List.nodup_iff_count_le_one.1 hnd h
  have h2 := List.one_le_count_iff.2 hret
  have h3 := retrieved_le_published tr c hr h
  cases hf : map_find c.2.results h with
  | none => rfl
  | some w =>
      simp only [hf, Option.isSome_some, if_true] at h3
      omega

/-- C5, amended: for every handle `h` whose result `v` is in the result map of a reachable
state, the first `request_result(h)` returns `v` and removes the entry, changing nothing
else; a second `request_result(h)` does not return an error but is blocked, and along
every later schedule it stays blocked as long as the dispatcher has not published a
result under `h` again, which does not happen while at most `2^64` tasks have been
submitted. -/
theorem request_result_once {T : Type} (tr : List (Event T)) (c : List (Obs T) × Server T)
    (hr : run tr init = some c) (h : Nat) (v : T)
    (hpub : map_find c.2.results h = some v) :
    request_result h c.2 = some (v, { c.2 with results := map_erase c.2.results h }) ∧
    request_result h { c.2 with results := map_erase c.2.results h } = none ∧
    (∀ (tr' : List (Event T)) (c' : List (Obs T) × Server T),
      run tr' (c.1 ++ [Obs.retrieved h v], { c.2 with results := map_erase c.2.results h })
        = some c' →
      ((handles_published c'.1).count h = (handles_published c.1).count h ∨
        submitted_count tr + submitted_count tr' ≤ SIZE_MODULUS) →
      request_result h c'.2 = none) := by
  have he : map_find (map_erase c.2.results h) h = none := by
    rw [map_find_erase]; simp
  have hfirst : request_result h c.2
      = some (v, { c.2 with results := map_erase c.2.results h }) := by
    simp [request_result, hpub]
  refine ⟨hfirst, by simp [request_result, he], ?_⟩
  intro tr' c' hr' hcond
  have hnone : map_find c'.2.results h = none := by
    rcases hcond with hcount | hbound
    · obtain ⟨new, hnew, himp⟩ := run_keeps_blocked h tr' _ c' hr' he
      apply himp
      simp only at hnew
      rw [hnew, handles_published_append, handles_published_append,
        List.count_append, List.count_append] at hcount
      have h0 : List.count h (handles_published [Obs.retrieved h v]) = 0 := by
        simp [handles_published, publications]
      exact List.count_eq_zero.1 (by omega)
    · have hstep : step (Event.request_result h) c.2
          = some (Obs.retrieved h v, { c.2 with results := map_erase c.2.results h }) := by
        simp [step, hfirst]
      have hrun : run (tr ++ Event.request_result h :: tr') init = some c' := by
        rw [run_append, hr, Option.some_bind]
        simp only [run, hstep]
        exact hr'
      have hcnt : submitted_count (tr ++ Event.request_result h :: tr') ≤ SIZE_MODULUS := by
        rw [submitted_count_append]
        simp only [submitted_count]
        exact hbound
      obtain ⟨new, hnew⟩ := run_log_extends tr' _ c' hr'
      apply retrieved_not_completed _ c' hrun hcnt h
      simp only at hnew
      rw [hnew, handles_retrieved_append, handles_retrieved_append]
      exact List.mem_append_left _ (List.mem_append_right _ (by simp [handles_retrieved]))
  simp [request_result, hnone]

/-- Witness of the amended C5 on `schedule_two_published`, where the result 11 of handle 1
is in the result map. -/
theorem request_result_once_witness :
    run schedule_two_published init = some after_two_published ∧
    map_find after_two_published.2.results 1 = some 11 ∧
    request_result 1 after_two_published.2
      = some (11, { after_two_published.2 with
                    results := map_erase after_two_published.2.results 1 }) ∧
    request_result 1 { after_two_published.2 with
        results := map_erase after_two_published.2.results 1 } = none ∧
    (∀ (tr' : List (Event Nat)) (c' : List (Obs Nat) × Server Nat),
      run tr' (after_two_published.1 ++ [Obs.retrieved 1 11],
          { after_two_published.2 with
            results := map_erase after_two_published.2.results 1 }) = some c' →
      ((handles_published c'.1).count 1 = (handles_published after_two_published.1).count 1 ∨
        submitted_count schedule_two_published + submitted_count tr' ≤ SIZE_MODULUS) →
      request_result 1 c'.2 = none) :=
  ⟨rfl, rfl, request_result_once schedule_two_published after_two_published rfl 1 11 rfl⟩

/-! ## The handle allocator wraps around after `2^64` submissions -/

theorem run_wrap_head : run wrap_head init = some (wrap_head_log, wrap_state 1) := rfl

theorem run_wrap_cycle (k : Nat) (log : List (Obs Nat)) (hk : 0 < k) :
    run (wrap_cycle k) (log, wrap_state k)
      = some (log ++ wrap_cycle_log k, wrap_state ((k + 1) % SIZE_MODULUS)) := by
  have hk0 : ¬ 0 = k := by omega
  simp [wrap_cycle, wrap_cycle_log, wrap_state, run, step, add_task, loop_test, dequeue,
    complete_held, publish, request_result, map_find, map_erase, map_assign, async,
    Future.get, Future.finish, task_const, hk0]

theorem run_wrap_cycles (n : Nat) (log : List (Obs Nat)) (hn : n < SIZE_MODULUS) :
    run (wrap_cycles n) (log, wrap_state 1)
      = some (log ++ wrap_cycles_log n, wrap_state ((n + 1) % SIZE_MODULUS)) := by
  induction n with
  | zero => simp [wrap_cycles, wrap_cycles_log, run, SIZE_MODULUS]
  | succ n ih =>
      have h1 : (n + 1) % SIZE_MODULUS = n + 1 := Nat.mod_eq_of_lt hn
      rw [wrap_cycles, run_append, ih (by omega), h1, Option.some_bind,
        run_wrap_cycle (n + 1) _ (by omega), wrap_cycles_log, List.append_assoc]

theorem run_resubmit_tail (log : List (Obs Nat)) :
    run [Event.add_task (task_const 2)] (log, wrap_state 0)
      = some (log ++ [Obs.submitted 0 (task_const 2)], state_wrap_resubmit) := rfl

theorem run_republish_tail (log : List (Obs Nat)) :
    run [Event.loop_test, Event.dequeue, Event.complete_held, Event.publish]
        (log, state_wrap_resubmit)
      = some (log ++ [Obs.silent, Obs.silent, Obs.silent, Obs.published 0 2],
          state_wrap_republish) := by
  simp [state_wrap_resubmit, state_wrap_republish, run, step, loop_test, dequeue,
    complete_held, publish, map_erase, map_assign, Future.get, Future.finish]

theorem run_wrap_resubmit :
    run schedule_wrap_resubmit init = some (log_wrap_resubmit, state_wrap_resubmit) := by
  have hM : (SIZE_MODULUS - 1 + 1) % SIZE_MODULUS = 0 := by decide
  have hlt : SIZE_MODULUS - 1 < SIZE_MODULUS := by decide
  rw [schedule_wrap_resubmit, log_wrap_resubmit, List.append_assoc, run_append,
    run_wrap_head, Option.some_bind, run_append, run_wrap_cycles (SIZE_MODULUS - 1) _ hlt,
    hM, Option.some_bind, run_resubmit_tail]

theorem run_wrap_republish :
    run schedule_wrap_republish init = some (log_wrap_republish, state_wrap_republish) := by
  rw [schedule_wrap_republish, log_wrap_republish, run_append, run_wrap_resubmit,
    Option.some_bind, run_republish_tail]

theorem wrap_cycles_log_retrieved (n k : Nat)
    (hk : k ∈ handles_retrieved (wrap_cycles_log n)) : 0 < k := by
  induction n with
  | zero => simp [wrap_cycles_log, handles_retrieved] at hk
  | succ n ih =>
      rw [wrap_cycles_log, handles_retrieved_append] at hk
      rcases List.mem_append.1 hk with h | h
      · exact ih h
      · simp [wrap_cycle_log, handles_retrieved] at h
        omega

theorem mem_log_wrap_republish (o : Obs Nat) (h : o ∈ wrap_head_log) :
    o ∈ log_wrap_republish := by
  rw [log_wrap_republish, log_wrap_resubmit]
  exact List.mem_append_left _ (List.mem_append_left _ (List.mem_append_left _ h))

/-- C6, counterexample: handle 0 is published and never retrieved, `2^64 - 1` further tasks
pass through the server, and the next `add_task` call returns handle 0 again; handle 0 is
then in the pending queue and in the result map at once. -/
theorem handle_in_both_after_wraparound :
    run schedule_wrap_resubmit init = some (log_wrap_resubmit, state_wrap_resubmit) ∧
    0 ∈ queued_handles state_wrap_resubmit ∧
    0 ∈ completed_handles state_wrap_resubmit :=
  ⟨run_wrap_resubmit, by simp [state_wrap_resubmit, queued_handles],
    by simp [state_wrap_resubmit, completed_handles]⟩

/-- C1, counterexample: `add_task` returned handle 0 for the task producing 1 and the
dispatcher published it; after the allocator has wrapped, a second task producing 2 is
given handle 0 and published over it, and the first `request_result(0)` returns 2, not
the value of the first computation. -/
theorem round_trip_fails_after_wraparound :
    run schedule_wrap_republish init = some (log_wrap_republish, state_wrap_republish) ∧
    Obs.submitted 0 (task_const 1) ∈ log_wrap_republish ∧
    Obs.published 0 1 ∈ log_wrap_republish ∧
    0 ∉ handles_retrieved log_wrap_republish ∧
    request_result 0 state_wrap_republish
      = some (2, { state_wrap_republish with results := [] }) ∧
    task_const 1 () ≠ 2 := by
  refine ⟨run_wrap_republish, ?_, ?_, ?_, rfl, by decide⟩
  · exact mem_log_wrap_republish _ (by simp [wrap_head_log])
  · exact mem_log_wrap_republish _ (by simp [wrap_head_log])
  · intro h
    rw [log_wrap_republish, log_wrap_resubmit, handles_retrieved_append,
      handles_retrieved_append, handles_retrieved_append] at h
    rcases List.mem_append.1 h with h | h
    · rcases List.mem_append.1 h with h | h
      · rcases List.mem_append.1 h with h | h
        · simp [wrap_head_log, handles_retrieved] at h
        · exact absurd (wrap_cycles_log_retrieved _ _ h) (by decide)
      · simp [handles_retrieved] at h
    · simp [handles_retrieved] at h

/-- C3, counterexample: after the allocator has wrapped, the dispatcher publishes handle 0
a second time, after the handles `1, ..., 2^64 - 1`: the sequence of published handles is
not strictly increasing. -/
theorem publication_not_increasing_after_wraparound :
    run schedule_wrap_republish init = some (log_wrap_republish, state_wrap_republish) ∧
    ¬ List.Pairwise (fun a b => a < b) (handles_published log_wrap_republish) := by
  refine ⟨run_wrap_republish, ?_⟩
  intro h
  have hsplit : handles_published log_wrap_republish
      = 0 :: (handles_published (wrap_cycles_log (SIZE_MODULUS - 1)) ++ [0]) := by
    rw [log_wrap_republish, log_wrap_resubmit, handles_published_append,
      handles_published_append, handles_published_append]
    have h1 : handles_published wrap_head_log = [0] := rfl
    have h2 : handles_published [Obs.submitted 0 (task_const 2)] = [] := rfl
    have h3 : handles_published [Obs.silent, Obs.silent, Obs.silent, Obs.published 0 2]
        = [0] := rfl
    rw [h1, h2, h3, List.append_nil, List.singleton_append, List.cons_append]
  rw [hsplit] at h
  have := (List.pairwise_cons.1 h).1 0 (List.mem_append_right _ (List.mem_singleton.2 rfl))
  omega

/-! ## Row slicing in task3.cpp -/

theorem slice_bound_succ (q r : Int) (k : Nat) :
    slice_bound q r (k + 1)
      = slice_bound q r k + q + (if (k : Int) < r then 1 else 0) := by
  simp only [slice_bound]
  push_cast
  split_ifs with h
  · rw [min_eq_left (by omega), min_eq_left (by omega)]; ring
  · rw [min_eq_right (by omega), min_eq_right (by omega)]; ring

theorem slice_loop_closed (q r N : Int) (fuel : Nat) :
    ∀ i : Nat, (i : Int) + fuel ≤ N →
      slice_loop q r N fuel i (slice_bound q r i)
        = (List.range fuel).map
            (fun j => (slice_bound q r (i + j), slice_bound q r (i + j + 1))) := by
  induction fuel with
  | zero => intro i _; simp [slice_loop]
  | succ fuel ih =>
      intro i hi
      have hlt : (i : Int) < N := by omega
      have hnext := ih (i + 1) (by push_cast; omega)
      rw [slice_bound_succ] at hnext
      push_cast at hnext
      simp only [slice_loop, if_pos hlt, hnext, List.range_succ_eq_map, List.map_cons,
        List.map_map, Nat.add_zero]
      rw [slice_bound_succ]
      congr 1
      apply List.map_congr_left
      intro j _
      simp only [Function.comp, Nat.succ_eq_add_one]
      rw [show i + 1 + j = i + (j + 1) by omega]

theorem slice_bound_zero (q r : Int) (hr : 0 ≤ r) : slice_bound q r 0 = 0 := by
  simp [slice_bound, hr]

theorem slice_bound_step (q r : Int) (hq : 0 ≤ q) (k : Nat) :
    slice_bound q r k ≤ slice_bound q r (k + 1) ∧
    (slice_bound q r (k + 1) - slice_bound q r k = q ∨
      slice_bound q r (k + 1) - slice_bound q r k = q + 1) := by
  rw [slice_bound_succ]
  split_ifs <;> omega

theorem slice_bound_mono (q r : Int) (hq : 0 ≤ q) (i j : Nat) (hij : i ≤ j) :
    slice_bound q r i ≤ slice_bound q r j := by
  induction j with
  | zero =>
      have : i = 0 := by omega
      subst this
      exact le_refl _
  | succ j ih =>
      rcases Nat.lt_or_ge i (j + 1) with h | h
      · exact le_trans (ih (by omega)) (slice_bound_step q r hq j).1
      · have : i = j + 1 := by omega
        subst this
        exact le_refl _

theorem visits_count (q r : Int) (hq : 0 ≤ q) (hr : 0 ≤ r) (row : Int) (hrow : 0 ≤ row)
    (k : Nat) :
    (((List.range k).map (fun j => (slice_bound q r j, slice_bound q r (j + 1)))).filter
        (fun p => visits p row)).length
      = if row < slice_bound q r k then 1 else 0 := by
  induction k with
  | zero => simp [slice_bound_zero q r hr, not_lt.2 hrow]
  | succ k ih =>
      have hstep := (slice_bound_step q r hq k).1
      rw [List.range_succ, List.map_append, List.filter_append, List.length_append, ih]
      simp only [List.map_cons, List.map_nil, List.filter_cons, List.filter_nil, visits]
      by_cases h1 : row < slice_bound q r k
      · have h2 : row < slice_bound q r (k + 1) := by omega
        have h3 : ¬ (slice_bound q r k ≤ row ∧ row < slice_bound q r (k + 1)) := by omega
        simp [h1, h2, h3]
      · by_cases h2 : row < slice_bound q r (k + 1)
        · have h3 : slice_bound q r k ≤ row ∧ row < slice_bound q r (k + 1) := by omega
          simp [h1, h2, h3]
        · have h3 : ¬ (slice_bound q r k ≤ row ∧ row < slice_bound q r (k + 1)) := by omega
          simp [h1, h2, h3]

/-- For `n ≥ 0` rows and `numThread ≥ 1` workers the slicing loop produces the pairs
`(slice_bound j, slice_bound (j + 1))` for `j = 0, ..., numThread - 1`. -/
theorem slices_closed (n numThread : Int) (hn : 0 ≤ n) (ht : 1 ≤ numThread) :
    slices n numThread
      = (List.range numThread.toNat).map
          (fun j => (slice_bound (Int.tdiv n numThread) (Int.tmod n numThread) j,
            slice_bound (Int.tdiv n numThread) (Int.tmod n numThread) (j + 1))) ∧
    0 ≤ Int.tdiv n numThread ∧ 0 ≤ Int.tmod n numThread ∧
    slice_bound (Int.tdiv n numThread) (Int.tmod n numThread) numThread.toNat = n := by
  have hq : 0 ≤ Int.tdiv n numThread := Int.tdiv_nonneg hn (by omega)
  have hr : 0 ≤ Int.tmod n numThread := Int.tmod_nonneg _ hn
  have hr2 : Int.tmod n numThread < numThread := Int.tmod_lt_of_pos _ (by omega)
  have hcast : ((numThread.toNat : Nat) : Int) = numThread := Int.toNat_of_nonneg (by omega)
  refine ⟨?_, hq, hr, ?_⟩
  · have h := slice_loop_closed (Int.tdiv n numThread) (Int.tmod n numThread) numThread
      numThread.toNat 0 (by rw [hcast]; simp)
    rw [slice_bound_zero _ _ hr] at h
    simp only [Nat.cast_zero, Nat.zero_add] at h
    exact h
  · simp only [slice_bound, hcast]
    rw [min_eq_right (by omega)]
    exact Int.tdiv_add_tmod n numThread

/-- C10: for every row count `n ≥ 0` and worker count `numThread ≥ 1`, the slicing loop of
`main` hands out `numThread` half-open ranges that start at row 0, are contiguous (each
starts where the previous one ends), end at row `n`, stay inside `[0, n]`, are pairwise
disjoint, visit every row of `[0, n)` exactly once, and have lengths that differ by at
most 1. -/
theorem slices_partition_rows (n numThread : Int) (hn : 0 ≤ n) (ht : 1 ≤ numThread) :
    (slices n numThread).length = numThread.toNat ∧
    (slices n numThread).head?.map Prod.fst = some 0 ∧
    (slices n numThread).getLast?.map Prod.snd = some n ∧
    (∀ (i : Nat) (p p' : Int × Int), (slices n numThread)[i]? = some p →
      (slices n numThread)[i + 1]? = some p' → p'.1 = p.2) ∧
    (∀ p ∈ slices n numThread, 0 ≤ p.1 ∧ p.1 ≤ p.2 ∧ p.2 ≤ n) ∧
    (∀ (i j : Nat) (p p' : Int × Int), i < j → (slices n numThread)[i]? = some p →
      (slices n numThread)[j]? = some p' → p.2 ≤ p'.1) ∧
    (∀ row : Int, 0 ≤ row → row < n →
      ((slices n numThread).filter (fun p => visits p row)).length = 1) ∧
    (∀ p ∈ slices n numThread, ∀ p' ∈ slices n numThread,
      p.2 - p.1 ≤ p'.2 - p'.1 + 1) := by
  obtain ⟨hL, hq, hr, hend⟩ := slices_closed n numThread hn ht
  have hm : 0 < numThread.toNat := by omega
  generalize Int.tdiv n numThread = q at hL hq hend
  generalize Int.tmod n numThread = r at hL hr hend
  generalize numThread.toNat = m at hL hend hm
  rw [hL]
  have hget : ∀ (i : Nat) (p : Int × Int),
      ((List.range m).map (fun j => (slice_bound q r j, slice_bound q r (j + 1))))[i]? = some p →
      i < m ∧ p = (slice_bound q r i, slice_bound q r (i + 1)) := by
    intro i p hp
    rw [List.getElem?_map] at hp
    rcases Nat.lt_or_ge i m with h | h
    · rw [List.getElem?_range h] at hp
      simp only [Option.map_some', Option.some.injEq] at hp
      exact ⟨h, hp.symm⟩
    · rw [List.getElem?_eq_none (by simpa using h)] at hp
      simp at hp
  have hmem : ∀ p ∈ (List.range m).map (fun j => (slice_bound q r j, slice_bound q r (j + 1))),
      ∃ j, j < m ∧ p = (slice_bound q r j, slice_bound q r (j + 1)) := by
    intro p hp
    obtain ⟨j, hj, rfl⟩ := List.mem_map.1 hp
    exact ⟨j, List.mem_range.1 hj, rfl⟩
  refine ⟨by simp, ?_, ?_, ?_, ?_, ?_, ?_, ?_⟩
  · rw [List.head?_map, List.head?_range]
    simp [Nat.pos_iff_ne_zero.1 hm, slice_bound_zero q r hr]
  · obtain ⟨k, rfl⟩ : ∃ k, m = k + 1 := ⟨m - 1, by omega⟩
    rw [List.range_succ, List.map_append]
    simp [hend]
  · intro i p p' hp hp'
    obtain ⟨_, rfl⟩ := hget i p hp
    obtain ⟨_, rfl⟩ := hget (i + 1) p' hp'
    rfl
  · intro p hp
    obtain ⟨j, hj, rfl⟩ := hmem p hp
    refine ⟨?_, (slice_bound_step q r hq j).1, ?_⟩
    · have := slice_bound_mono q r hq 0 j (by omega)
      rw [slice_bound_zero q r hr] at this
      exact this
    · have := slice_bound_mono q r hq (j + 1) m (by omega)
      rw [hend] at this
      exact this
  · intro i j p p' hij hp hp'
    obtain ⟨_, rfl⟩ := hget i p hp
    obtain ⟨_, rfl⟩ := hget j p' hp'
    exact slice_bound_mono q r hq (i + 1) j (by omega)
  · intro row h0 h1
    rw [visits_count q r hq hr row h0 m, hend, if_pos h1]
  · intro p hp p' hp'
    obtain ⟨j, _, rfl⟩ := hmem p hp
    obtain ⟨j', _, rfl⟩ := hmem p' hp'
    have h1 := (slice_bound_step q r hq j).2
    have h2 := (slice_bound_step q r hq j').2
    simp only
    omega

/-- Witness of C10 for 10 rows and 4 workers: the ranges are [0,3), [3,6), [6,8), [8,10). -/
theorem slices_partition_rows_witness :
    (0 : Int) ≤ 10 ∧ (1 : Int) ≤ 4 ∧
    slices 10 4 = [(0, 3), (3, 6), (6, 8), (8, 10)] ∧
    (slices 10 4).length = (4 : Int).toNat ∧
    (slices 10 4).head?.map Prod.fst = some 0 ∧
    (slices 10 4).getLast?.map Prod.snd = some 10 ∧
    (∀ row : Int, 0 ≤ row → row < 10 →
      ((slices 10 4).filter (fun p => visits p row)).length = 1) :=
  have h := slices_partition_rows 10 4 (by decide) (by decide)
  ⟨by decide, by decide, by decide, h.1, h.2.1, h.2.2.1, h.2.2.2.2.2.2.1⟩

end Parallel3
